import Mathlib

/-!
Verification of the wispr-action backend against its specification.

The definitions below are shallow embeddings of the Python functions in
`src/backend/command_manager.py`, `src/backend/executor.py`,
`src/backend/mcp_client.py` and `src/backend/secret_store.py`.
Python dictionaries are modelled as insertion-ordered association lists,
Python values that flow through the parameter pipeline as the inductive
type `PyVal`, and fallible operations as `Except`.
-/

/-- Python values that appear in parameter maps: `None`, strings, ints
and booleans.  (`dict.get` returning "absent" is modelled with `Option`
at the dictionary layer; a stored `None` is `PyVal.none`.) -/
inductive PyVal : Type where
  | none : PyVal
  | str  : String → PyVal
  | int  : Int → PyVal
  | bool : Bool → PyVal
deriving DecidableEq, Repr

/-- `str(value)` as used by `interpolate_parameters`: ints and bools use
Python's rendering, strings pass through. -/
def pyStr : PyVal → String
  | .none => "None"
  | .str s => s
  | .int n => toString n
  | .bool b => if b then "True" else "False"

/-- `value is None or value == ''`: the emptiness test used throughout
the executor. -/
def pyEmpty : PyVal → Bool
  | .none => true
  | .str s => s = ""
  | _ => false

/-- Insertion-ordered dictionary (Python `dict`). -/
abbrev PyDict (α : Type) := List (String × α)

/-- `d.get(k)` / `k in d`. -/
def getv {α : Type} : PyDict α → String → Option α
  | [], _ => Option.none
  | (k', v) :: m, k => if k = k' then some v else getv m k

/-- `d[k] = v`: overwrite in place if present (dicts hold each key once),
else append at the end, preserving Python's insertion order. -/
def setk {α : Type} : PyDict α → String → α → PyDict α
  | [], k, v => [(k, v)]
  | (k', v') :: m, k, v =>
      if k' = k then (k, v) :: m else (k', v') :: setk m k v

theorem getv_setk {α : Type} (m : PyDict α) (k k' : String) (v : α) :
    getv (setk m k v) k' = if k' = k then some v else getv m k' := by
  induction m with
  | nil =>
    by_cases h : k' = k <;> simp [setk, getv, h]
  | cons p m ih =>
    obtain ⟨k₀, v₀⟩ := p
    simp only [setk]
    by_cases h0 : k₀ = k
    · subst h0
      simp only [if_pos rfl, getv]
      by_cases h : k' = k₀ <;> simp [h]
    · simp only [if_neg h0, getv]
      by_cases h : k' = k₀
      · subst h
        simp [h0]
      · simp [h, ih]

/-!
## `CommandManager._sanitize_param_name` (src/backend/command_manager.py)

Steps, in source order: replace every character outside `[a-zA-Z0-9_.-]`
with `_`; `strip('_')`; collapse runs of `_`; truncate to 64 characters;
fall back to `"param"` if empty.
-/

/-- Characters allowed by the Anthropic property-key pattern
`[a-zA-Z0-9_.-]`. -/
def allowedParamChar (c : Char) : Bool :=
  c.isAlphanum || c == '_' || c == '.' || c == '-'

/-- `re.sub(r'[^a-zA-Z0-9_.-]', '_', name)`. -/
def replaceInvalidChars (l : List Char) : List Char :=
  l.map (fun c => if allowedParamChar c then c else '_')

/-- Drop trailing underscores (the right half of `strip('_')`). -/
def dropTrailingU (l : List Char) : List Char :=
  (l.reverse.dropWhile (· == '_')).reverse

/-- Python `str.strip('_')`. -/
def stripU (l : List Char) : List Char :=
  dropTrailingU (l.dropWhile (· == '_'))

/-- Helper for `collapseU`: the flag records whether the previously
emitted character was an underscore (in which case further underscores
of the same run are skipped). -/
def collapseUAux : Bool → List Char → List Char
  | _, [] => []
  | prev, c :: cs =>
      if c = '_' then
        if prev then collapseUAux true cs else '_' :: collapseUAux true cs
      else c :: collapseUAux false cs

/-- `re.sub(r'_+', '_', s)`: collapse each run of underscores to one. -/
def collapseU (l : List Char) : List Char := collapseUAux false l

/-- The whole pipeline of `_sanitize_param_name` before the fallback. -/
def sanitizeCore (l : List Char) : List Char :=
  (collapseU (stripU (replaceInvalidChars l))).take 64

/-- `CommandManager._sanitize_param_name`. -/
def sanitize_param_name (s : String) : String :=
  let r := sanitizeCore s.data
  if r = [] then "param" else String.mk r

/-- The contract pattern `^[A-Za-z0-9_.-]{1,64}$`. -/
def matchesParamPattern (s : String) : Bool :=
  !s.data.isEmpty && s.data.length ≤ 64 && s.data.all allowedParamChar

/-! Structural facts about the sanitizer pipeline. -/

/-- `noDD l` holds when `l` has no two adjacent underscores. -/
def noDD : List Char → Bool
  | [] => true
  | [_] => true
  | a :: b :: rest => !(a = '_' && b = '_') && noDD (b :: rest)

theorem noDD_cons {a : Char} {l : List Char} :
    noDD (a :: l) = (!(a = '_' && l.head? = some '_') && noDD l) := by
  cases l with
  | nil => simp [noDD]
  | cons b rest => simp [noDD]

theorem noDD_take {l : List Char} (h : noDD l = true) (n : Nat) :
    noDD (l.take n) = true := by
  induction l generalizing n with
  | nil => simp [noDD]
  | cons a l ih =>
    cases n with
    | zero => simp [noDD]
    | succ n =>
      rw [List.take_succ_cons, noDD_cons]
      rw [noDD_cons] at h
      simp only [Bool.and_eq_true, Bool.not_eq_true'] at h ⊢
      refine ⟨?_, ih h.2 n⟩
      cases hn : (l.take n).head? with
      | none => simp
      | some c =>
        have : l.head? = some c := by
          cases l with
          | nil => simp at hn
          | cons x xs =>
            cases n with
            | zero => simp at hn
            | succ m => simpa using hn
        cases hc : decide (a = '_') with
        | false => simp [hc]
        | true =>
          simp only [decide_eq_true_eq] at hc
          subst hc
          rcases h with ⟨h1, _⟩
          rw [this] at h1
          simp only [Bool.and_eq_false_iff] at h1 ⊢
          rcases h1 with h1 | h1
          · simp at h1
          · right
            simpa [hn] using h1

theorem head?_dropWhileU (l : List Char) :
    (l.dropWhile (· == '_')).head? ≠ some '_' := by
  induction l with
  | nil => simp [List.dropWhile]
  | cons a l ih =>
    by_cases h : a = '_'
    · subst h
      simpa [List.dropWhile_cons] using ih
    · simp [List.dropWhile_cons, h]

theorem head?_collapseUAux_true (l : List Char) :
    (collapseUAux true l).head? ≠ some '_' := by
  induction l with
  | nil => simp [collapseUAux]
  | cons c cs ih =>
    by_cases hc : c = '_'
    · simpa [collapseUAux, hc] using ih
    · simp [collapseUAux, hc]

theorem noDD_collapseUAux (b : Bool) (l : List Char) :
    noDD (collapseUAux b l) = true := by
  induction l generalizing b with
  | nil => simp [collapseUAux, noDD]
  | cons c cs ih =>
    by_cases hc : c = '_'
    · cases b with
      | true => simpa [collapseUAux, hc] using ih true
      | false =>
        subst hc
        have h1 : (collapseUAux true cs).head? ≠ some '_' :=
          head?_collapseUAux_true cs
        have h2 : collapseUAux false ('_' :: cs) = '_' :: collapseUAux true cs := by
          simp [collapseUAux]
        rw [h2, noDD_cons]
        simp [h1, ih true]
    · rw [collapseUAux]
      simp only [if_neg hc, noDD_cons, Bool.and_eq_true, Bool.not_eq_true']
      refine ⟨by simp [hc], ih false⟩

theorem noDD_collapseU (l : List Char) : noDD (collapseU l) = true :=
  noDD_collapseUAux false l

theorem head?_collapseU (l : List Char) (h : l.head? ≠ some '_') :
    (collapseU l).head? ≠ some '_' := by
  cases l with
  | nil => simp [collapseU, collapseUAux]
  | cons a l =>
    simp only [List.head?] at h
    have ha : ¬ a = '_' := fun hc => h (by rw [hc])
    rw [collapseU, collapseUAux]
    simpa [ha] using ha

theorem collapseUAux_noop (l : List Char) (h : noDD l = true) :
    collapseUAux false l = l ∧
      (l.head? ≠ some '_' → collapseUAux true l = l) := by
  induction l with
  | nil => simp [collapseUAux]
  | cons a cs ih =>
    rw [noDD_cons] at h
    simp only [Bool.and_eq_true, Bool.not_eq_true'] at h
    obtain ⟨hhd, hcs⟩ := h
    obtain ⟨ih1, ih2⟩ := ih hcs
    constructor
    · by_cases ha : a = '_'
      · subst ha
        have hh : cs.head? ≠ some '_' := by
          intro hcontra
          rw [hcontra] at hhd
          simp at hhd
        simp [collapseUAux, ih2 hh]
      · rw [collapseUAux]
        simp [ha, ih1]
    · intro hha
      simp only [List.head?] at hha
      have ha : ¬ a = '_' := fun hc => hha (by rw [hc])
      rw [collapseUAux]
      simp [ha, ih1]

theorem collapseU_noop (l : List Char) (h : noDD l = true) :
    collapseU l = l :=
  (collapseUAux_noop l h).1

theorem mem_collapseUAux {c : Char} (b : Bool) (l : List Char)
    (h : c ∈ collapseUAux b l) : c ∈ l := by
  induction l generalizing b with
  | nil => simpa [collapseUAux] using h
  | cons a cs ih =>
    rw [collapseUAux] at h
    by_cases ha : a = '_'
    · subst ha
      simp only [if_pos rfl] at h
      cases b with
      | true =>
        simp only [if_pos rfl] at h
        exact List.mem_cons_of_mem _ (ih true h)
      | false =>
        simp only [if_neg (by simp : ¬ (false = true))] at h
        rcases List.mem_cons.mp h with h | h
        · simp [h]
        · exact List.mem_cons_of_mem _ (ih true h)
    · simp only [if_neg ha] at h
      rcases List.mem_cons.mp h with h | h
      · simp [h]
      · exact List.mem_cons_of_mem _ (ih false h)

theorem exists_dropWhile_append (p : Char → Bool) (xs : List Char) (c : Char)
    (hc : p c = false) :
    ∃ ys, List.dropWhile p (xs ++ [c]) = ys ++ [c] := by
  induction xs with
  | nil =>
    refine ⟨[], ?_⟩
    simp [List.dropWhile_cons, hc]
  | cons x xs ih =>
    by_cases hx : p x = true
    · simpa [List.dropWhile_cons, hx] using ih
    · refine ⟨x :: xs, ?_⟩
      simp [List.dropWhile_cons, hx]

theorem head?_dropTrailingU (m : List Char) (h : m.head? ≠ some '_') :
    (dropTrailingU m).head? ≠ some '_' := by
  cases m with
  | nil => simp [dropTrailingU]
  | cons a rest =>
    simp only [List.head?] at h
    have ha : ¬ a = '_' := fun hc => h (by rw [hc])
    unfold dropTrailingU
    rw [List.reverse_cons]
    obtain ⟨ys, hys⟩ := exists_dropWhile_append (· == '_') rest.reverse a
      (by simpa using ha)
    rw [hys, List.reverse_append]
    simpa using ha

theorem mem_dropTrailingU {c : Char} {l : List Char}
    (h : c ∈ dropTrailingU l) : c ∈ l := by
  unfold dropTrailingU at h
  rw [List.mem_reverse] at h
  have := List.Sublist.mem h (List.dropWhile_sublist (p := (· == '_')) (l := l.reverse))
  simpa using this

theorem mem_stripU {c : Char} {l : List Char} (h : c ∈ stripU l) : c ∈ l := by
  unfold stripU at h
  have h1 := mem_dropTrailingU h
  exact List.Sublist.mem h1 (List.dropWhile_sublist (p := (· == '_')) (l := l))

theorem chars_replaceInvalid {c : Char} {l : List Char}
    (h : c ∈ replaceInvalidChars l) : allowedParamChar c = true := by
  unfold replaceInvalidChars at h
  rw [List.mem_map] at h
  obtain ⟨x, _, hx⟩ := h
  by_cases hok : allowedParamChar x = true
  · rw [if_pos hok] at hx
    rw [← hx]
    exact hok
  · rw [if_neg hok] at hx
    rw [← hx]
    decide

theorem replaceInvalid_noop (l : List Char)
    (h : ∀ c ∈ l, allowedParamChar c = true) : replaceInvalidChars l = l := by
  unfold replaceInvalidChars
  induction l with
  | nil => simp
  | cons a cs ih =>
    have ha := h a (List.mem_cons_self a cs)
    simp only [List.map_cons, if_pos ha, List.cons.injEq, true_and]
    exact ih (fun c hc => h c (List.mem_cons_of_mem a hc))

theorem dropWhileU_noop (l : List Char) (h : l.head? ≠ some '_') :
    l.dropWhile (· == '_') = l := by
  cases l with
  | nil => simp
  | cons a cs =>
    simp only [List.head?] at h
    have ha : ¬ a = '_' := fun hc => h (by rw [hc])
    simp [List.dropWhile_cons, ha]

theorem dropTrailingU_noop (l : List Char) (h : l.getLast? ≠ some '_') :
    dropTrailingU l = l := by
  unfold dropTrailingU
  have hrev : l.reverse.head? ≠ some '_' := by
    rw [List.head?_reverse]
    exact h
  rw [dropWhileU_noop l.reverse hrev, List.reverse_reverse]

theorem head?_take {α : Type} (n : Nat) (l : List α) (h : 0 < n) :
    (l.take n).head? = l.head? := by
  cases n with
  | zero => exact absurd h (Nat.lt_irrefl 0)
  | succ m => cases l <;> simp [List.take_succ_cons]

theorem chars_sanitizeCore {c : Char} {l : List Char}
    (h : c ∈ sanitizeCore l) : allowedParamChar c = true := by
  unfold sanitizeCore at h
  have h1 := List.take_subset 64 _ h
  have h2 := mem_collapseUAux false _ h1
  have h3 := mem_stripU h2
  exact chars_replaceInvalid h3

theorem length_sanitizeCore (l : List Char) : (sanitizeCore l).length ≤ 64 := by
  unfold sanitizeCore
  exact le_trans (List.length_take_le 64 _) (le_refl _)

theorem head?_sanitizeCore (l : List Char) :
    (sanitizeCore l).head? ≠ some '_' := by
  unfold sanitizeCore
  rw [head?_take 64 _ (by norm_num)]
  apply head?_collapseU
  unfold stripU
  exact head?_dropTrailingU _ (head?_dropWhileU (replaceInvalidChars l))

theorem noDD_sanitizeCore (l : List Char) : noDD (sanitizeCore l) = true := by
  unfold sanitizeCore
  exact noDD_take (noDD_collapseU _) 64

theorem sanitizeCore_noop (r : List Char)
    (hchars : ∀ c ∈ r, allowedParamChar c = true)
    (hhead : r.head? ≠ some '_')
    (hlast : r.getLast? ≠ some '_')
    (hdd : noDD r = true)
    (hlen : r.length ≤ 64) :
    sanitizeCore r = r := by
  unfold sanitizeCore stripU
  rw [replaceInvalid_noop r hchars, dropWhileU_noop r hhead,
    dropTrailingU_noop r hlast, collapseU_noop r hdd,
    List.take_of_length_le hlen]

/-- C2, amended: `sanitize_param_name` always produces a string matching
`^[A-Za-z0-9_.-]{1,64}$` (falling back to `"param"`), and it is
idempotent on every input whose sanitized form does not end in `_`
(the 64-character truncation can expose a trailing underscore, which a
second pass strips — see the counterexample). -/
theorem sanitize_param_name_spec :
    (∀ s : String, matchesParamPattern (sanitize_param_name s) = true) ∧
    (∀ s : String, (sanitize_param_name s).data.getLast? ≠ some '_' →
      sanitize_param_name (sanitize_param_name s) = sanitize_param_name s) := by
  constructor
  · intro s
    unfold sanitize_param_name
    by_cases hr : sanitizeCore s.data = []
    · simp only [hr, if_pos rfl]
      decide
    · simp only [if_neg hr]
      unfold matchesParamPattern
      simp only [Bool.and_eq_true, Bool.not_eq_true', List.all_eq_true]
      refine ⟨⟨?_, ?_⟩, ?_⟩
      · simpa [List.isEmpty_iff] using hr
      · simpa using length_sanitizeCore s.data
      · intro c hc
        exact chars_sanitizeCore hc
  · intro s hlast
    by_cases hr : sanitizeCore s.data = []
    · have hs : sanitize_param_name s = "param" := by
        unfold sanitize_param_name
        simp [hr]
      rw [hs]
      decide
    · have hs : sanitize_param_name s = String.mk (sanitizeCore s.data) := by
        unfold sanitize_param_name
        simp [hr]
      rw [hs]
      rw [hs] at hlast
      have hdata : (String.mk (sanitizeCore s.data)).data = sanitizeCore s.data := rfl
      rw [hdata] at hlast
      unfold sanitize_param_name
      have hcore : sanitizeCore (String.mk (sanitizeCore s.data)).data
          = sanitizeCore s.data := by
        rw [hdata]
        exact sanitizeCore_noop _ (fun c hc => chars_sanitizeCore hc)
          (head?_sanitizeCore s.data) hlast (noDD_sanitizeCore s.data)
          (length_sanitizeCore s.data)
      simp only [hcore, if_neg hr]

/-- C2 counterexample: on an input of 63 `a`s followed by `_b`, the
64-character truncation leaves a trailing underscore, so a second
application of the sanitizer differs from the first. -/
theorem sanitize_param_name_not_idempotent :
    sanitize_param_name
        (sanitize_param_name (String.mk (List.replicate 63 'a' ++ ['_', 'b'])))
      ≠ sanitize_param_name (String.mk (List.replicate 63 'a' ++ ['_', 'b'])) := by
  decide

/-- C2 witness: both amended conjuncts at the concrete input `"City Name!"`. -/
theorem sanitize_param_name_spec_witness :
    matchesParamPattern (sanitize_param_name "City Name!") = true ∧
    sanitize_param_name (sanitize_param_name "City Name!")
      = sanitize_param_name "City Name!" :=
  ⟨sanitize_param_name_spec.1 "City Name!",
   sanitize_param_name_spec.2 "City Name!" (by decide)⟩

/-!
## `CommandManager.build_parameter_map` (src/backend/command_manager.py)

For each defined parameter, if the value was provided under the
sanitized name, it is copied to the original name; otherwise, if it was
provided under the original name, it is copied to the sanitized name.
-/

/-- A command parameter definition (only the name participates in the
parameter-map logic; a missing/empty name is skipped by the source). -/
structure ParamDef where
  name : String
deriving DecidableEq, Repr

/-- The MCP action payload of a command (`action` dict in commands.json). -/
structure McpAction where
  server_id : String
  tool : String
  default_args : PyDict PyVal
deriving DecidableEq, Repr

/-- The slice of a command dictionary used by the parameter pipeline
and the MCP executor. -/
structure Command where
  id : String
  name : String
  parameters : List ParamDef
  action : McpAction
deriving DecidableEq, Repr

/-- One iteration of the `build_parameter_map` loop. -/
def bpmStep (provided : PyDict PyVal) (pm : PyDict PyVal) (p : ParamDef) :
    PyDict PyVal :=
  if p.name = "" then pm
  else
    match getv provided (sanitize_param_name p.name) with
    | some v => setk pm p.name v
    | Option.none =>
        match getv provided p.name with
        | some v => setk pm (sanitize_param_name p.name) v
        | Option.none => pm

/-- `CommandManager.build_parameter_map` (a falsy `command` returns
`provided` unchanged). -/
def build_parameter_map (command : Option Command) (provided : PyDict PyVal) :
    PyDict PyVal :=
  match command with
  | Option.none => provided
  | some c => c.parameters.foldl (bpmStep provided) provided

/-- The single dictionary write (key, value) that processing a parameter
named `n` performs, if any. -/
def writeTarget (provided : PyDict PyVal) (n : String) :
    Option (String × PyVal) :=
  if n = "" then Option.none
  else
    match getv provided (sanitize_param_name n) with
    | some v => some (n, v)
    | Option.none =>
        match getv provided n with
        | some v => some (sanitize_param_name n, v)
        | Option.none => Option.none

theorem bpmStep_eq (provided pm : PyDict PyVal) (p : ParamDef) :
    bpmStep provided pm p =
      match writeTarget provided p.name with
      | some (k, v) => setk pm k v
      | Option.none => pm := by
  unfold bpmStep writeTarget
  by_cases h : p.name = ""
  · simp [h]
  · simp only [if_neg h]
    cases getv provided (sanitize_param_name p.name) with
    | none =>
      cases getv provided p.name with
      | none => rfl
      | some v => rfl
    | some v => rfl

theorem bpm_foldl_pres (provided : PyDict PyVal) (defs : List ParamDef)
    (pm : PyDict PyVal) (k : String)
    (h : ∀ p ∈ defs, ∀ kv, writeTarget provided p.name = some kv → kv.1 ≠ k) :
    getv (defs.foldl (bpmStep provided) pm) k = getv pm k := by
  induction defs generalizing pm with
  | nil => rfl
  | cons p defs ih =>
    rw [List.foldl_cons]
    rw [ih _ (fun q hq kv hkv => h q (List.mem_cons_of_mem p hq) kv hkv)]
    rw [bpmStep_eq]
    cases hw : writeTarget provided p.name with
    | none => rfl
    | some kv =>
      obtain ⟨k', v'⟩ := kv
      have hk : k' ≠ k := h p (List.mem_cons_self p defs) (k', v') hw
      rw [getv_setk, if_neg (fun hc : k = k' => hk hc.symm)]

theorem bpm_foldl_agree (provided : PyDict PyVal) (defs : List ParamDef)
    (pm : PyDict PyVal) (k : String) (v : PyVal)
    (hpm : getv pm k = some v)
    (h : ∀ p ∈ defs, ∀ kv, writeTarget provided p.name = some kv →
      kv.1 = k → kv.2 = v) :
    getv (defs.foldl (bpmStep provided) pm) k = some v := by
  induction defs generalizing pm with
  | nil => exact hpm
  | cons p defs ih =>
    rw [List.foldl_cons]
    refine ih _ ?_ (fun q hq kv hkv => h q (List.mem_cons_of_mem p hq) kv hkv)
    rw [bpmStep_eq]
    cases hw : writeTarget provided p.name with
    | none => exact hpm
    | some kv =>
      obtain ⟨k', v'⟩ := kv
      rw [getv_setk]
      by_cases hk : k = k'
      · subst hk
        rw [if_pos rfl]
        exact congrArg some (h p (List.mem_cons_self p defs) (k, v') hw rfl)
      · rw [if_neg hk]
        exact hpm

theorem bpm_foldl_write (provided : PyDict PyVal) (defs : List ParamDef)
    (pm : PyDict PyVal) (k : String) (v : PyVal)
    (hex : ∃ p ∈ defs, writeTarget provided p.name = some (k, v))
    (h : ∀ p ∈ defs, ∀ kv, writeTarget provided p.name = some kv →
      kv.1 = k → kv.2 = v) :
    getv (defs.foldl (bpmStep provided) pm) k = some v := by
  induction defs generalizing pm with
  | nil => simp at hex
  | cons p defs ih =>
    rw [List.foldl_cons]
    obtain ⟨q, hq, hqw⟩ := hex
    rcases List.mem_cons.mp hq with hq | hq
    · subst hq
      apply bpm_foldl_agree provided defs _ k v
      · rw [bpmStep_eq, hqw, getv_setk, if_pos rfl]
      · exact fun r hr kv hkv => h r (List.mem_cons_of_mem q hr) kv hkv
    · exact ih _ ⟨q, hq, hqw⟩
        (fun r hr kv hkv => h r (List.mem_cons_of_mem p hr) kv hkv)

theorem bpm_foldl_isSome (provided : PyDict PyVal) (defs : List ParamDef)
    (pm : PyDict PyVal) (k : String)
    (hpm : (getv pm k).isSome = true) :
    (getv (defs.foldl (bpmStep provided) pm) k).isSome = true := by
  induction defs generalizing pm with
  | nil => exact hpm
  | cons p defs ih =>
    rw [List.foldl_cons]
    refine ih _ ?_
    rw [bpmStep_eq]
    cases hw : writeTarget provided p.name with
    | none => exact hpm
    | some kv =>
      obtain ⟨k', v'⟩ := kv
      rw [getv_setk]
      by_cases hk : k = k'
      · simp [hk]
      · rw [if_neg hk]
        exact hpm

theorem writeTarget_cases {provided : PyDict PyVal} {n : String}
    {kv : String × PyVal} (hw : writeTarget provided n = some kv) :
    n ≠ "" ∧
      ((getv provided (sanitize_param_name n) = some kv.2 ∧ kv.1 = n) ∨
       (getv provided (sanitize_param_name n) = Option.none ∧
        getv provided n = some kv.2 ∧ kv.1 = sanitize_param_name n)) := by
  unfold writeTarget at hw
  by_cases h : n = ""
  · simp [h] at hw
  · refine ⟨h, ?_⟩
    rw [if_neg h] at hw
    cases hs : getv provided (sanitize_param_name n) with
    | some v =>
      rw [hs] at hw
      cases hw
      exact Or.inl ⟨rfl, rfl⟩
    | none =>
      rw [hs] at hw
      cases ho : getv provided n with
      | some v =>
        rw [ho] at hw
        cases hw
        exact Or.inr ⟨rfl, rfl, rfl⟩
      | none =>
        rw [ho] at hw
        cases hw

/-- C4, amended: `build_parameter_map` returns a key-superset of
`providedArgs` in which every defined parameter's provided value is
retrievable under both its original and sanitized name, and parameters
provided under neither name stay absent — provided that distinct defined
parameter names have distinct sanitized forms and that each sanitized
form is itself a fixed point of the sanitizer.  (Without those two side
conditions the cross-population can overwrite entries, see the
counterexample.) -/
theorem build_parameter_map_spec (c : Command) (provided : PyDict PyVal)
    (hinj : ∀ p₁ ∈ c.parameters, ∀ p₂ ∈ c.parameters,
      p₁.name ≠ p₂.name →
      sanitize_param_name p₁.name ≠ sanitize_param_name p₂.name)
    (hfix : ∀ p ∈ c.parameters,
      sanitize_param_name (sanitize_param_name p.name) =
        sanitize_param_name p.name) :
    (∀ k, (getv provided k).isSome = true →
      (getv (build_parameter_map (some c) provided) k).isSome = true) ∧
    ∀ p ∈ c.parameters, p.name ≠ "" →
      ((∀ v, getv provided (sanitize_param_name p.name) = some v →
          getv (build_parameter_map (some c) provided) p.name = some v ∧
          getv (build_parameter_map (some c) provided)
            (sanitize_param_name p.name) = some v) ∧
       (getv provided (sanitize_param_name p.name) = Option.none →
        ∀ v, getv provided p.name = some v →
          getv (build_parameter_map (some c) provided) p.name = some v ∧
          getv (build_parameter_map (some c) provided)
            (sanitize_param_name p.name) = some v) ∧
       (getv provided (sanitize_param_name p.name) = Option.none →
        getv provided p.name = Option.none →
          getv (build_parameter_map (some c) provided) p.name = Option.none ∧
          getv (build_parameter_map (some c) provided)
            (sanitize_param_name p.name) = Option.none)) := by
  have hB : build_parameter_map (some c) provided
      = c.parameters.foldl (bpmStep provided) provided := rfl
  rw [hB]
  constructor
  · intro k hk
    exact bpm_foldl_isSome provided c.parameters provided k hk
  · intro p hp hn
    refine ⟨?_, ?_, ?_⟩
    · -- value provided under the sanitized name
      intro v hs
      constructor
      · refine bpm_foldl_write provided c.parameters provided p.name v
          ⟨p, hp, ?_⟩ ?_
        · unfold writeTarget
          rw [if_neg hn, hs]
        · intro q hq kv hkv hk1
          obtain ⟨hqn, hcase⟩ := writeTarget_cases hkv
          rcases hcase with ⟨hA1, hA2⟩ | ⟨hB1, hB2, hB3⟩
          · -- original-name write at p.name: q.name = p.name
            rw [hA2] at hk1
            rw [hk1] at hA1
            rw [hs] at hA1
            exact (Option.some.injEq _ _ ▸ hA1).symm
          · -- sanitized write landing on p.name forces s = p.name
            rw [hB3] at hk1
            have hfq : sanitize_param_name p.name = p.name := by
              have := hfix q hq
              rw [hk1] at this
              exact this
            rw [hk1] at hB1
            rw [hfq] at hs
            rw [hs] at hB1
            cases hB1
      · refine bpm_foldl_agree provided c.parameters provided
          (sanitize_param_name p.name) v hs ?_
        intro q hq kv hkv hk1
        obtain ⟨hqn, hcase⟩ := writeTarget_cases hkv
        rcases hcase with ⟨hA1, hA2⟩ | ⟨hB1, hB2, hB3⟩
        · -- q.name = sanitize p.name, and sanitize is a fixed point there
          rw [hA2] at hk1
          rw [hk1] at hA1
          rw [hfix p hp] at hA1
          rw [hs] at hA1
          exact (Option.some.injEq _ _ ▸ hA1).symm
        · rw [hB3] at hk1
          rw [hk1] at hB1
          rw [hs] at hB1
          cases hB1
    · -- value provided only under the original name
      intro hs v ho
      constructor
      · refine bpm_foldl_agree provided c.parameters provided p.name v ho ?_
        intro q hq kv hkv hk1
        obtain ⟨hqn, hcase⟩ := writeTarget_cases hkv
        rcases hcase with ⟨hA1, hA2⟩ | ⟨hB1, hB2, hB3⟩
        · rw [hA2] at hk1
          rw [hk1] at hA1
          rw [hs] at hA1
          cases hA1
        · rw [hB3] at hk1
          have : sanitize_param_name p.name = p.name := by
            have := hfix q hq
            rw [hk1] at this
            exact this
          rw [this] at hs
          rw [hs] at ho
          cases ho
      · refine bpm_foldl_write provided c.parameters provided
          (sanitize_param_name p.name) v ⟨p, hp, ?_⟩ ?_
        · unfold writeTarget
          rw [if_neg hn, hs, ho]
        · intro q hq kv hkv hk1
          obtain ⟨hqn, hcase⟩ := writeTarget_cases hkv
          rcases hcase with ⟨hA1, hA2⟩ | ⟨hB1, hB2, hB3⟩
          · rw [hA2] at hk1
            rw [hk1] at hA1
            rw [hfix p hp] at hA1
            rw [hs] at hA1
            cases hA1
          · rw [hB3] at hk1
            by_cases hqp : q.name = p.name
            · rw [hqp] at hB2
              rw [ho] at hB2
              exact (Option.some.injEq _ _ ▸ hB2).symm
            · exact absurd hk1 (hinj q hq p hp hqp)
    · -- value provided under neither name
      intro hs ho
      constructor
      · rw [bpm_foldl_pres provided c.parameters provided p.name ?_]
        · exact ho
        · intro q hq kv hkv hk1
          obtain ⟨hqn, hcase⟩ := writeTarget_cases hkv
          rcases hcase with ⟨hA1, hA2⟩ | ⟨hB1, hB2, hB3⟩
          · rw [hA2] at hk1
            rw [hk1] at hA1
            rw [hs] at hA1
            cases hA1
          · rw [hB3] at hk1
            have hfq : sanitize_param_name p.name = p.name := by
              have := hfix q hq
              rw [hk1] at this
              exact this
            by_cases hqp : q.name = p.name
            · rw [hqp, ho] at hB2
              cases hB2
            · have := hinj q hq p hp hqp
              rw [hk1, hfq] at this
              exact absurd rfl this
      · rw [bpm_foldl_pres provided c.parameters provided
          (sanitize_param_name p.name) ?_]
        · exact hs
        · intro q hq kv hkv hk1
          obtain ⟨hqn, hcase⟩ := writeTarget_cases hkv
          rcases hcase with ⟨hA1, hA2⟩ | ⟨hB1, hB2, hB3⟩
          · rw [hA2] at hk1
            rw [hk1] at hA1
            rw [hfix p hp] at hA1
            rw [hs] at hA1
            cases hA1
          · rw [hB3] at hk1
            by_cases hqp : q.name = p.name
            · rw [hqp, ho] at hB2
              cases hB2
            · exact absurd hk1 (hinj q hq p hp hqp)

/-- C4 counterexample: two defined parameters `"a b"` and `"a  b"` share
the sanitized name `"a_b"`; with both provided, the later
cross-population overwrites the earlier one, so the value provided for
`"a b"` is not retrievable under its sanitized name. -/
theorem build_parameter_map_not_superset :
    sanitize_param_name "a b" = "a_b" ∧
    sanitize_param_name "a  b" = "a_b" ∧
    getv (build_parameter_map
        (some { id := "c", name := "c",
                parameters := [{ name := "a b" }, { name := "a  b" }],
                action := { server_id := "", tool := "", default_args := [] } })
        [("a b", PyVal.str "1"), ("a  b", PyVal.str "2")]) "a_b"
      = some (PyVal.str "2") := by
  decide

/-- C4 witness: a single parameter `"City Name"` provided under its
sanitized key `"City_Name"` becomes retrievable under both names. -/
theorem build_parameter_map_spec_witness :
    getv (build_parameter_map
        (some { id := "c", name := "c", parameters := [{ name := "City Name" }],
                action := { server_id := "", tool := "", default_args := [] } })
        [("City_Name", PyVal.str "y")]) "City Name" = some (PyVal.str "y") ∧
    getv (build_parameter_map
        (some { id := "c", name := "c", parameters := [{ name := "City Name" }],
                action := { server_id := "", tool := "", default_args := [] } })
        [("City_Name", PyVal.str "y")]) "City_Name" = some (PyVal.str "y") := by
  have h := build_parameter_map_spec
    { id := "c", name := "c", parameters := [{ name := "City Name" }],
      action := { server_id := "", tool := "", default_args := [] } }
    [("City_Name", PyVal.str "y")]
    (by decide) (by decide)
  have h2 := (h.2 { name := "City Name" } (by decide) (by decide)).1
    (PyVal.str "y") (by decide)
  refine ⟨h2.1, ?_⟩
  have hsan : sanitize_param_name "City Name" = "City_Name" := by decide
  have := h2.2
  rwa [hsan] at this

/-- C10, amended: when a value is provided under both a defined
parameter's original name and its sanitized name, the sanitized value
wins: the original-name entry is overwritten with it, and the sanitized
entry keeps it — provided the sanitized name is a fixed point of the
sanitizer (which can fail only when 64-character truncation leaves a
trailing underscore, see the counterexample). -/
theorem build_parameter_map_sanitized_precedence (c : Command)
    (provided : PyDict PyVal) (p : ParamDef) (hp : p ∈ c.parameters)
    (hn : p.name ≠ "") (v1 v2 : PyVal)
    (ho : getv provided p.name = some v1)
    (hs : getv provided (sanitize_param_name p.name) = some v2)
    (hfixp : sanitize_param_name (sanitize_param_name p.name)
      = sanitize_param_name p.name) :
    getv (build_parameter_map (some c) provided) p.name = some v2 ∧
    getv (build_parameter_map (some c) provided)
      (sanitize_param_name p.name) = some v2 := by
  have hB : build_parameter_map (some c) provided
      = c.parameters.foldl (bpmStep provided) provided := rfl
  rw [hB]
  constructor
  · refine bpm_foldl_write provided c.parameters provided p.name v2
      ⟨p, hp, ?_⟩ ?_
    · unfold writeTarget
      rw [if_neg hn, hs]
    · intro q hq kv hkv hk1
      obtain ⟨hqn, hcase⟩ := writeTarget_cases hkv
      rcases hcase with ⟨hA1, hA2⟩ | ⟨hB1, hB2, hB3⟩
      · rw [hA2] at hk1
        rw [hk1] at hA1
        rw [hs] at hA1
        exact (Option.some.injEq _ _ ▸ hA1).symm
      · rw [hB3] at hk1
        rw [hk1] at hB1
        rw [ho] at hB1
        cases hB1
  · refine bpm_foldl_agree provided c.parameters provided
      (sanitize_param_name p.name) v2 hs ?_
    intro q hq kv hkv hk1
    obtain ⟨hqn, hcase⟩ := writeTarget_cases hkv
    rcases hcase with ⟨hA1, hA2⟩ | ⟨hB1, hB2, hB3⟩
    · rw [hA2] at hk1
      rw [hk1, hfixp] at hA1
      rw [hs] at hA1
      exact (Option.some.injEq _ _ ▸ hA1).symm
    · rw [hB3] at hk1
      rw [hk1] at hB1
      rw [hs] at hB1
      cases hB1

/-- C10 counterexample: parameter one is 63 `a`s followed by `!b`, whose
sanitized form is 63 `a`s plus a trailing `_` (truncation artifact);
parameter two is literally that sanitized string.  Processing parameter
two overwrites the sanitized-key entry with the value provided under
parameter one's original name (`"v1"`), so the sanitized entry does not
keep its provided value `"v2"`. -/
theorem build_parameter_map_sanitized_entry_replaced :
    sanitize_param_name (String.mk (List.replicate 63 'a' ++ ['!', 'b']))
      = String.mk (List.replicate 63 'a' ++ ['_']) ∧
    getv (build_parameter_map
        (some { id := "c", name := "c",
                parameters := [
                  { name := String.mk (List.replicate 63 'a' ++ ['!', 'b']) },
                  { name := String.mk (List.replicate 63 'a' ++ ['_']) }],
                action := { server_id := "", tool := "", default_args := [] } })
        [(String.mk (List.replicate 63 'a' ++ ['!', 'b']), PyVal.str "v1"),
         (String.mk (List.replicate 63 'a' ++ ['_']), PyVal.str "v2"),
         (String.mk (List.replicate 63 'a'), PyVal.str "v1")])
      (String.mk (List.replicate 63 'a' ++ ['_']))
      = some (PyVal.str "v1") := by
  decide

/-- C10 witness: `"City Name"` provided as `"x"` and `"City_Name"` as
`"y"`; the sanitized value `"y"` wins under both keys. -/
theorem build_parameter_map_sanitized_precedence_witness :
    getv (build_parameter_map
        (some { id := "c", name := "c", parameters := [{ name := "City Name" }],
                action := { server_id := "", tool := "", default_args := [] } })
        [("City Name", PyVal.str "x"), ("City_Name", PyVal.str "y")])
      "City Name" = some (PyVal.str "y") ∧
    getv (build_parameter_map
        (some { id := "c", name := "c", parameters := [{ name := "City Name" }],
                action := { server_id := "", tool := "", default_args := [] } })
        [("City Name", PyVal.str "x"), ("City_Name", PyVal.str "y")])
      "City_Name" = some (PyVal.str "y") := by
  have h := build_parameter_map_sanitized_precedence
    { id := "c", name := "c", parameters := [{ name := "City Name" }],
      action := { server_id := "", tool := "", default_args := [] } }
    [("City Name", PyVal.str "x"), ("City_Name", PyVal.str "y")]
    { name := "City Name" } (by decide) (by decide)
    (PyVal.str "x") (PyVal.str "y") (by decide) (by decide) (by decide)
  have hsan : sanitize_param_name "City Name" = "City_Name" := by decide
  refine ⟨h.1, ?_⟩
  have := h.2
  rwa [hsan] at this

/-!
## `interpolate_parameters` (src/backend/executor.py)

Phase 1 scans the template for non-nested bracketed sections
(`re.sub(r'\[([^\[\]]+)\]', process_conditional, template)`); each
section is fully substituted when every `{name}` placeholder inside it
resolves to a present, non-empty value, and dropped otherwise.  Later
phases substitute the remaining parameters, normalise whitespace, and
erase unreplaced placeholders.
-/

/-- Parse the body of a bracketed section: the characters up to the
first `]`, failing on `[` or end of input (mirroring `[^\[\]]+\]`). -/
def spanSection : List Char → Option (List Char × List Char)
  | [] => Option.none
  | c :: cs =>
      if c = ']' then some ([], cs)
      else if c = '[' then Option.none
      else
        match spanSection cs with
        | some (cont, rest) => some (c :: cont, rest)
        | Option.none => Option.none

/-- Parse the body of a `{...}` placeholder: the characters up to the
first `}` (mirroring `[^}]+\}`). -/
def spanBrace : List Char → Option (List Char × List Char)
  | [] => Option.none
  | c :: cs =>
      if c = '}' then some ([], cs)
      else
        match spanBrace cs with
        | some (cont, rest) => some (c :: cont, rest)
        | Option.none => Option.none

/-- `re.findall(r'\{([^}]+)\}', content)` via leftmost scanning
(fuel-indexed; `fuel ≥ length` is always sufficient). -/
def findPlaceholdersF : Nat → List Char → List String
  | 0, _ => []
  | _ + 1, [] => []
  | f + 1, c :: cs =>
      if c = '{' then
        match spanBrace cs with
        | some (cont, rest) =>
            if cont = [] then findPlaceholdersF f cs
            else String.mk cont :: findPlaceholdersF f rest
        | Option.none => findPlaceholdersF f cs
      else findPlaceholdersF f cs

/-- All `{name}` placeholder names in a section body. -/
def findPlaceholders (l : List Char) : List String :=
  findPlaceholdersF l.length l

/-- Python `str.replace(pat, rep)` for a nonempty pattern: leftmost,
non-overlapping (fuel-indexed; `fuel ≥ length` suffices). -/
def replCharsF (pat rep : List Char) : Nat → List Char → List Char
  | 0, l => l
  | _ + 1, [] => []
  | f + 1, c :: cs =>
      if pat ≠ [] ∧ pat.isPrefixOf (c :: cs) then
        rep ++ replCharsF pat rep f ((c :: cs).drop pat.length)
      else
        c :: replCharsF pat rep f cs

/-- `all parameters referenced in the section are present and
non-empty` (the guard of `process_conditional`). -/
def allPresent (pm : PyDict PyVal) (names : List String) : Bool :=
  names.all (fun n =>
    match getv pm n with
    | some v => !(pyEmpty v)
    | Option.none => false)

/-- The substitution loop of `process_conditional`: each found
placeholder is replaced by the stringified parameter value. -/
def substPlaceholders (pm : PyDict PyVal) (names : List String)
    (content : List Char) : List Char :=
  names.foldl (fun acc n =>
    match getv pm n with
    | some v => replCharsF ('{' :: (n.data ++ ['}'])) (pyStr v).data acc.length acc
    | Option.none => acc) content

/-- The result `process_conditional` returns for one section body. -/
def sectionResult (pm : PyDict PyVal) (content : List Char) : List Char :=
  if allPresent pm (findPlaceholders content) then
    substPlaceholders pm (findPlaceholders content) content
  else []

/-- Phase 1 of `interpolate_parameters`:
`re.sub(r'\[([^\[\]]+)\]', process_conditional, template)`
(fuel-indexed). -/
def processCondListF (pm : PyDict PyVal) : Nat → List Char → List Char
  | 0, l => l
  | _ + 1, [] => []
  | f + 1, c :: cs =>
      if c = '[' then
        match spanSection cs with
        | some (cont, rest) =>
            if cont = [] then '[' :: processCondListF pm f cs
            else sectionResult pm cont ++ processCondListF pm f rest
        | Option.none => '[' :: processCondListF pm f cs
      else c :: processCondListF pm f cs

/-- Phase 1 of `interpolate_parameters` with canonical fuel. -/
def processCondList (pm : PyDict PyVal) (l : List Char) : List Char :=
  processCondListF pm l.length l

/-- Phase 2: substitute every non-`None` parameter of the map into the
remaining template (`for key, value in param_map.items(): ...`). -/
def interpRemaining (pm : PyDict PyVal) (l : List Char) : List Char :=
  pm.foldl (fun acc kv =>
    match kv.2 with
    | PyVal.none => acc
    | v => replCharsF ('{' :: (kv.1.data ++ ['}'])) (pyStr v).data acc.length acc) l

/-- Python `str.isspace` for the characters occurring in templates. -/
def pySpace (c : Char) : Bool :=
  c = ' ' || c = '\t' || c = '\n' || c = '\r' || c = '\x0b' || c = '\x0c'

/-- Collect maximal non-whitespace runs (Python `str.split()`); the
accumulator holds the current word reversed. -/
def wordsAux : List Char → List Char → List (List Char)
  | [], acc => if acc = [] then [] else [acc.reverse]
  | c :: cs, acc =>
      if pySpace c then
        if acc = [] then wordsAux cs [] else acc.reverse :: wordsAux cs []
      else wordsAux cs (c :: acc)

/-- `' '.join(words)`. -/
def joinSpace : List (List Char) → List Char
  | [] => []
  | [w] => w
  | w :: ws => w ++ ' ' :: joinSpace ws

/-- `' '.join(s.split())`. -/
def collapseWs (l : List Char) : List Char := joinSpace (wordsAux l [])

/-- Phase 4: `re.sub(r'\{[^}]+\}', '', s)` (fuel-indexed). -/
def removePlaceholdersF : Nat → List Char → List Char
  | 0, l => l
  | _ + 1, [] => []
  | f + 1, c :: cs =>
      if c = '{' then
        match spanBrace cs with
        | some (cont, rest) =>
            if cont = [] then '{' :: removePlaceholdersF f cs
            else removePlaceholdersF f rest
        | Option.none => '{' :: removePlaceholdersF f cs
      else c :: removePlaceholdersF f cs

/-- `interpolate_parameters(template, parameters, command)`: the whole
pipeline.  (When `command` is falsy, `build_parameter_map` returns
`parameters` unchanged, exactly as the source's `if command:` branch.) -/
def interpolate_parameters (template : String) (parameters : PyDict PyVal)
    (command : Option Command) : String :=
  let pm := build_parameter_map command parameters
  let r1 := processCondList pm template.data
  let r2 := interpRemaining pm r1
  let r3 := collapseWs r2
  let r4 := removePlaceholdersF r3.length r3
  let r5 := collapseWs r4
  String.mk r5

theorem spanSection_decomp :
    ∀ (cs cont rest : List Char), spanSection cs = some (cont, rest) →
      cs = cont ++ ']' :: rest := by
  intro cs
  induction cs with
  | nil => intro cont rest h; cases h
  | cons c cs ih =>
    intro cont rest h
    rw [spanSection] at h
    by_cases hc : c = ']'
    · rw [if_pos hc] at h
      cases h
      simp [hc]
    · rw [if_neg hc] at h
      by_cases hb : c = '['
      · rw [if_pos hb] at h
        cases h
      · rw [if_neg hb] at h
        cases hs : spanSection cs with
        | none => rw [hs] at h; cases h
        | some p =>
          obtain ⟨cont', rest'⟩ := p
          rw [hs] at h
          cases h
          rw [List.cons_append, ih _ _ hs]

theorem spanSection_append :
    ∀ (c rest : List Char), (∀ x ∈ c, x ≠ '[' ∧ x ≠ ']') →
      spanSection (c ++ ']' :: rest) = some (c, rest) := by
  intro c
  induction c with
  | nil => intro rest _; simp [spanSection]
  | cons a c ih =>
    intro rest h
    have ha := h a (List.mem_cons_self a c)
    rw [List.cons_append, spanSection, if_neg ha.2, if_neg ha.1,
      ih rest (fun x hx => h x (List.mem_cons_of_mem a hx))]

theorem processCondListF_fuelInv (pm : PyDict PyVal) :
    ∀ (f₁ : Nat), ∀ (f₂ : Nat) (l : List Char), l.length ≤ f₁ → l.length ≤ f₂ →
      processCondListF pm f₁ l = processCondListF pm f₂ l := by
  intro f₁
  induction f₁ with
  | zero =>
    intro f₂ l h1 _
    have : l = [] := List.eq_nil_of_length_eq_zero (Nat.le_zero.mp h1)
    subst this
    cases f₂ <;> rfl
  | succ f₁ ih =>
    intro f₂ l h1 h2
    cases l with
    | nil => cases f₂ <;> rfl
    | cons c cs =>
      cases f₂ with
      | zero => simp at h2
      | succ f₂ =>
        simp only [List.length_cons, Nat.succ_le_succ_iff] at h1 h2
        rw [processCondListF, processCondListF]
        by_cases hc : c = '['
        · rw [if_pos hc, if_pos hc]
          cases hs : spanSection cs with
          | none =>
            rw [ih f₂ cs h1 h2]
          | some p =>
            obtain ⟨cont, rest⟩ := p
            dsimp only
            by_cases hcont : cont = []
            · rw [if_pos hcont, if_pos hcont, ih f₂ cs h1 h2]
            · rw [if_neg hcont, if_neg hcont]
              have hd := spanSection_decomp cs cont rest hs
              have hr : rest.length ≤ cs.length := by
                rw [hd]
                simp only [List.length_append, List.length_cons]
                omega
              rw [ih f₂ rest (le_trans hr h1) (le_trans hr h2)]
        · rw [if_neg hc, if_neg hc, ih f₂ cs h1 h2]

/-- C1: a non-nested bracketed section of the template is expanded
(placeholders substituted, brackets dropped) by the conditional-section
phase of `interpolate_parameters` exactly when every `{name}`
placeholder inside it resolves to a present, non-empty value
(`allPresent`); otherwise the entire section, including its literal
text, is dropped (`sectionResult` returns `[]`).  `pre` is the part of
the template before the section (containing no `[`), `c` the section
body (nonempty and bracket-free), `rest` the remainder. -/
theorem interpolate_conditional_sections (pm : PyDict PyVal)
    (pre c rest : List Char)
    (hpre : '[' ∉ pre) (hc : c ≠ []) (hcb : ∀ x ∈ c, x ≠ '[' ∧ x ≠ ']') :
    processCondList pm (pre ++ '[' :: (c ++ ']' :: rest))
      = pre ++
        (if allPresent pm (findPlaceholders c) = true
          then substPlaceholders pm (findPlaceholders c) c
          else []) ++
        processCondList pm rest := by
  induction pre with
  | nil =>
    simp only [List.nil_append]
    unfold processCondList
    rw [show ('[' :: (c ++ ']' :: rest)).length
        = (c ++ ']' :: rest).length + 1 from rfl]
    rw [processCondListF, if_pos rfl, spanSection_append c rest hcb]
    dsimp only
    rw [if_neg hc]
    have hr : rest.length ≤ (c ++ ']' :: rest).length := by
      simp only [List.length_append, List.length_cons]
      omega
    rw [processCondListF_fuelInv pm (c ++ ']' :: rest).length rest.length rest
      hr (le_refl _)]
    unfold sectionResult
    by_cases hap : allPresent pm (findPlaceholders c) = true
    · rw [if_pos hap]
    · rw [if_neg hap]
  | cons a pre ih =>
    have ha : a ≠ '[' := fun h => hpre (h ▸ List.mem_cons_self a pre)
    have hpre' : '[' ∉ pre := fun h => hpre (List.mem_cons_of_mem a h)
    simp only [List.cons_append]
    unfold processCondList
    rw [show (a :: (pre ++ '[' :: (c ++ ']' :: rest))).length
        = (pre ++ '[' :: (c ++ ']' :: rest)).length + 1 from rfl]
    rw [processCondListF, if_neg ha]
    rw [show processCondListF pm (pre ++ '[' :: (c ++ ']' :: rest)).length
          (pre ++ '[' :: (c ++ ']' :: rest))
        = processCondList pm (pre ++ '[' :: (c ++ ']' :: rest)) from rfl]
    rw [ih hpre']
    simp [processCondList]

/-- C1 witness: the section `[--id={id}]` after the prefix `"x "` is
expanded for `id = "5"`. -/
theorem interpolate_conditional_sections_witness :
    processCondList [("id", PyVal.str "5")]
        ("x ".data ++ '[' :: ("--id={id}".data ++ ']' :: " y".data))
      = "x ".data ++
        (if allPresent [("id", PyVal.str "5")]
              (findPlaceholders "--id={id}".data) = true
          then substPlaceholders [("id", PyVal.str "5")]
            (findPlaceholders "--id={id}".data) "--id={id}".data
          else []) ++
        processCondList [("id", PyVal.str "5")] " y".data :=
  interpolate_conditional_sections [("id", PyVal.str "5")]
    "x ".data "--id={id}".data " y".data
    (by decide) (by decide) (by decide)

/-!
## `execute_mcp` (src/backend/executor.py)

The argument map starts from `action.default_args`; defined parameters
with present, non-empty mapped values override it; the failsafe loop
adds further provided values only when `defined_names` is empty (its
guard is `if not defined_names or key in defined_names`).  All failures
are converted into an `ExecutionResult` with `success=False` and an
error message.
-/

/-- The result record produced by `create_result` /
`ExecutionResult` in the executor (`output` and `error` default to `""`;
the wall-clock `duration`, `timestamp` and `meta` fields are omitted
from the embedding). -/
structure ExecutionResult where
  success : Bool
  command_id : String
  command_name : String
  output : String
  error : String
deriving DecidableEq, Repr

/-- `{param.get('name') for param in command.get('parameters', []) if
param.get('name')}`.  (Iterating the Python set and iterating this list
write identical dictionary entries, because the written value depends
only on the name, so duplicate or reordered names are harmless.) -/
def definedNames (c : Command) : List String :=
  (c.parameters.map ParamDef.name).filter (fun n => n ≠ "")

/-- The first loop of the arg-map construction: defined parameters with
present, non-empty mapped values override the defaults. -/
def mcpArgsStep1 (param_map : PyDict PyVal) (args : PyDict PyVal)
    (n : String) : PyDict PyVal :=
  match getv param_map n with
  | some v => if pyEmpty v then args else setk args n v
  | Option.none => args

/-- The failsafe loop: `if key in args or value in (None, ""):
continue; if not defined_names or key in defined_names: args[key] =
value`. -/
def mcpArgsStep2 (dn : List String) (args : PyDict PyVal)
    (kv : String × PyVal) : PyDict PyVal :=
  if (getv args kv.1).isSome || pyEmpty kv.2 then args
  else if dn.isEmpty || dn.contains kv.1 then setk args kv.1 kv.2
  else args

/-- The argument map `execute_mcp` passes to `call_tool`. -/
def buildMcpArgs (c : Command) (param_map : PyDict PyVal) : PyDict PyVal :=
  let dn := definedNames c
  let args1 := dn.foldl (mcpArgsStep1 param_map) c.action.default_args
  param_map.foldl (mcpArgsStep2 dn) args1

theorem getv_eq_none_of_not_mem {α : Type} (m : PyDict α) (k : String)
    (h : k ∉ m.map Prod.fst) : getv m k = Option.none := by
  induction m with
  | nil => rfl
  | cons kv m ih =>
    obtain ⟨k₀, v₀⟩ := kv
    simp only [List.map_cons, List.mem_cons, not_or] at h
    rw [getv, if_neg h.1]
    exact ih h.2

theorem mcpArgsStep1_lookup (param_map args : PyDict PyVal) (n k : String) :
    getv (mcpArgsStep1 param_map args n) k =
      if k = n ∧ ∃ v, getv param_map k = some v ∧ pyEmpty v = false
      then getv param_map k
      else getv args k := by
  unfold mcpArgsStep1
  by_cases hkn : k = n
  · subst hkn
    cases hv : getv param_map k with
    | none => simp [hv]
    | some v =>
      by_cases hve : pyEmpty v = true
      · simp [hv, hve]
      · simp [hv, hve, getv_setk]
  · cases hv : getv param_map n with
    | none => simp [hkn]
    | some v =>
      by_cases hve : pyEmpty v = true
      · simp [hv, hve, hkn]
      · simp [hv, hve, getv_setk, hkn]

theorem mcpArgs1_lookup (param_map : PyDict PyVal) (dn : List String)
    (args : PyDict PyVal) (k : String) :
    getv (dn.foldl (mcpArgsStep1 param_map) args) k =
      if k ∈ dn ∧ ∃ v, getv param_map k = some v ∧ pyEmpty v = false
      then getv param_map k
      else getv args k := by
  induction dn generalizing args with
  | nil => simp
  | cons n dn ih =>
    rw [List.foldl_cons, ih, mcpArgsStep1_lookup]
    by_cases hP : ∃ v, getv param_map k = some v ∧ pyEmpty v = false
    · by_cases hkdn : k ∈ dn
      · simp [hkdn, hP, List.mem_cons]
      · by_cases hkn : k = n
        · subst hkn
          simp [hkdn, hP, List.mem_cons]
        · simp [hkn, hkdn, hP, List.mem_cons]
    · simp [hP]

theorem mcpArgsStep2_lookup (dn : List String) (args : PyDict PyVal)
    (k₀ k : String) (v₀ : PyVal) :
    getv (mcpArgsStep2 dn args (k₀, v₀)) k =
      if k = k₀ ∧ (getv args k₀).isSome = false ∧ pyEmpty v₀ = false ∧
          (dn.isEmpty || dn.contains k₀) = true
      then some v₀
      else getv args k := by
  unfold mcpArgsStep2
  by_cases hin : (getv args k₀).isSome = true
  · simp [hin]
  · by_cases hve : pyEmpty v₀ = true
    · simp [hve, Bool.not_eq_true _ ▸ hin]
    · by_cases hguard : (dn.isEmpty || dn.contains k₀) = true
      · simp only [Bool.not_eq_true] at hin hve
        rw [if_neg (by simp [hin, hve]), if_pos hguard, getv_setk]
        have hguardP : dn = [] ∨ k₀ ∈ dn := by simpa using hguard
        by_cases hk : k = k₀
        · simp [hk, hin, hve, hguardP]
        · simp [hk]
      · simp only [Bool.not_eq_true] at hin hve
        rw [if_neg (by simp [hin, hve]), if_neg hguard,
          if_neg (fun hc => hguard hc.2.2.2)]

theorem mcpArgs2_lookup (dn : List String) (entries : List (String × PyVal))
    (args : PyDict PyVal) (k : String)
    (hnd : (entries.map Prod.fst).Nodup) :
    getv (entries.foldl (mcpArgsStep2 dn) args) k =
      if (getv args k).isSome = true then getv args k
      else
        match getv entries k with
        | some v =>
            if pyEmpty v = false ∧ (dn.isEmpty || dn.contains k) = true
            then some v
            else Option.none
        | Option.none => Option.none := by
  induction entries generalizing args with
  | nil =>
    cases h : getv args k with
    | none => simp [h, getv]
    | some v => simp [h, getv]
  | cons kv entries ih =>
    obtain ⟨k₀, v₀⟩ := kv
    simp only [List.map_cons, List.nodup_cons] at hnd
    rw [List.foldl_cons, ih _ hnd.2]
    by_cases hk : k = k₀
    · subst hk
      have hent : getv entries k = Option.none :=
        getv_eq_none_of_not_mem entries k hnd.1
      have hcons : getv ((k, v₀) :: entries) k = some v₀ := by
        simp [getv]
      rw [hcons, hent]
      by_cases hin : (getv args k).isSome = true
      · have hstep : getv (mcpArgsStep2 dn args (k, v₀)) k = getv args k := by
          rw [mcpArgsStep2_lookup]
          exact if_neg (fun hc => by rw [hc.2.1] at hin; cases hin)
        rw [hstep]
        simp [hin]
      · have hnone : getv args k = Option.none := by
          cases hv : getv args k with
          | none => rfl
          | some w => rw [hv] at hin; simp at hin
        by_cases hve : pyEmpty v₀ = false
        · by_cases hguard : (dn.isEmpty || dn.contains k) = true
          · have hstep : getv (mcpArgsStep2 dn args (k, v₀)) k = some v₀ := by
              rw [mcpArgsStep2_lookup,
                if_pos ⟨rfl, by simp [hnone], hve, hguard⟩]
            have hguardP : dn = [] ∨ k ∈ dn := by simpa using hguard
            rw [hstep]
            simp [hnone, hguardP, hve]
          · have hstep : getv (mcpArgsStep2 dn args (k, v₀)) k
                = getv args k := by
              rw [mcpArgsStep2_lookup]
              exact if_neg (fun hc => hguard hc.2.2.2)
            have hguardP : ¬ (dn = [] ∨ k ∈ dn) := by
              intro hc
              exact hguard (by simpa using hc)
            rw [hstep, hnone]
            simp [hguardP]
        · simp only [Bool.not_eq_false] at hve
          have hstep : getv (mcpArgsStep2 dn args (k, v₀)) k
              = getv args k := by
            rw [mcpArgsStep2_lookup]
            exact if_neg (fun hc => by rw [hve] at hc; cases hc.2.2.1)
          rw [hstep, hnone]
          simp [hve]
    · have hstep : getv (mcpArgsStep2 dn args (k₀, v₀)) k = getv args k := by
        rw [mcpArgsStep2_lookup]
        exact if_neg (fun hc => hk hc.1)
      have hcons : getv ((k₀, v₀) :: entries) k = getv entries k := by
        simp [getv, hk]
      rw [hstep, hcons]

/-- C5 failure analysis and amended statement: the characterization of
the argument map `execute_mcp` passes to `call_tool`.  A defined
parameter with a present, non-empty mapped value wins; otherwise
`action.default_args` wins; the failsafe only fires when the command
defines no parameters at all (the source guard is
`if not defined_names or key in defined_names`, so for a command with
defined parameters no undefined key is ever added). -/
theorem execute_mcp_args (c : Command) (param_map : PyDict PyVal)
    (hnd : (param_map.map Prod.fst).Nodup) (k : String) :
    getv (buildMcpArgs c param_map) k =
      if k ∈ definedNames c ∧
          ∃ v, getv param_map k = some v ∧ pyEmpty v = false
      then getv param_map k
      else if (getv c.action.default_args k).isSome = true
      then getv c.action.default_args k
      else if definedNames c = [] ∧
          ∃ v, getv param_map k = some v ∧ pyEmpty v = false
      then getv param_map k
      else Option.none := by
  unfold buildMcpArgs
  rw [mcpArgs2_lookup _ _ _ _ hnd]
  by_cases hP : ∃ v, getv param_map k = some v ∧ pyEmpty v = false
  · obtain ⟨v, hv, hve⟩ := hP
    by_cases hkdn : k ∈ definedNames c
    · have h1 : getv ((definedNames c).foldl (mcpArgsStep1 param_map)
          c.action.default_args) k = some v := by
        rw [mcpArgs1_lookup, if_pos ⟨hkdn, ⟨v, hv, hve⟩⟩, hv]
      rw [h1]
      simp [hkdn, hv, hve]
    · have h1 : getv ((definedNames c).foldl (mcpArgsStep1 param_map)
          c.action.default_args) k = getv c.action.default_args k := by
        rw [mcpArgs1_lookup, if_neg (fun hc => hkdn hc.1)]
      rw [h1]
      cases hdef : getv c.action.default_args k with
      | some w =>
        simp [hkdn]
      | none =>
        by_cases hdn : definedNames c = []
        · simp [hkdn, hdn, hv, hve]
        · simp [hkdn, hdn, hv, hve]
  · have h1 : getv ((definedNames c).foldl (mcpArgsStep1 param_map)
        c.action.default_args) k = getv c.action.default_args k := by
      rw [mcpArgs1_lookup, if_neg (fun hc => hP hc.2)]
    rw [h1]
    cases hdef : getv c.action.default_args k with
    | some w =>
      simp [hP]
    | none =>
      cases hv : getv param_map k with
      | none => simp [hv, hP]
      | some v =>
        have hve : pyEmpty v = true := by
          by_contra hcontra
          exact hP ⟨v, hv, Bool.not_eq_true _ ▸ hcontra⟩
        simp [hv, hve, hP]

/-- C5 counterexample: the command defines parameter `"a"`; the provided
map contains only the undefined, non-empty `"b"`, which is not already
in the argument map — yet the failsafe does not add it, because the
guard `if not defined_names or key in defined_names` rejects undefined
keys whenever any parameter is defined. -/
theorem execute_mcp_args_no_failsafe_when_defined :
    getv (buildMcpArgs
        { id := "c", name := "c", parameters := [{ name := "a" }],
          action := { server_id := "s", tool := "t", default_args := [] } }
        [("b", PyVal.str "x")]) "b" = Option.none := by
  decide

/-- C5 witness: defined parameter wins over the default, failsafe fires
for a schema-less command. -/
theorem execute_mcp_args_witness :
    getv (buildMcpArgs
        { id := "c", name := "c", parameters := [{ name := "a" }],
          action := { server_id := "s", tool := "t",
                      default_args := [("a", PyVal.str "d")] } }
        [("a", PyVal.str "v"), ("b", PyVal.str "x")]) "a"
      = some (PyVal.str "v") := by
  have h := execute_mcp_args
    { id := "c", name := "c", parameters := [{ name := "a" }],
      action := { server_id := "s", tool := "t",
                  default_args := [("a", PyVal.str "d")] } }
    [("a", PyVal.str "v"), ("b", PyVal.str "x")] (by decide) "a"
  rw [h]
  decide

/-- The three failure modes `execute_mcp` converts into a structured
result: `MCPConfigError`, `MCPExecutionError`, and any other exception. -/
inductive McpFailure : Type where
  | configError (msg : String)
  | executionError (msg : String)
  | otherExc (msg : String)
deriving DecidableEq, Repr

/-- The dictionary returned by `call_tool` on success
(`structuredContent`/`content` are carried as their serialized text; an
absent or falsy field is `Option.none`). -/
structure McpCallResult where
  isError : Bool
  structuredContent : Option String
  content : Option String
deriving DecidableEq, Repr

/-- Python `str.strip()`. -/
def stripEnds (l : List Char) : List Char :=
  ((l.dropWhile pySpace).reverse.dropWhile pySpace).reverse

/-- `"\n".join(output_sections).strip() or "MCP tool executed
successfully."` -/
def mcpOutputText (r : McpCallResult) : String :=
  let sections :=
    (match r.structuredContent with | some s => [s] | Option.none => []) ++
    (match r.content with | some s => [s] | Option.none => [])
  let joined := String.intercalate "\n" sections
  let stripped := String.mk (stripEnds joined.data)
  if stripped = "" then "MCP tool executed successfully." else stripped

/-- `json.dumps(mcp_result, indent=2)` on the error path, abstracted as
the canonical rendering of the result record. -/
def mcpErrorDump (r : McpCallResult) : String := reprStr r

/-- `create_result` (duration/timestamp omitted). -/
def create_result (c : Command) (success : Bool)
    (output error : String) : ExecutionResult :=
  { success := success, command_id := c.id, command_name := c.name,
    output := output, error := error }

/-- `execute_mcp`: a total function of the command, the provided
parameters, the confirmation gate, and the outcome of the
`call_tool` invocation.  Every failure is converted into an
`ExecutionResult`; nothing escapes as an exception. -/
def executor_execute_mcp (command : Command) (parameters : PyDict PyVal)
    (confirm_mode : Bool) (userConfirms : Bool)
    (callOutcome : Except McpFailure McpCallResult) : ExecutionResult :=
  let param_map := build_parameter_map (some command) parameters
  let _args := buildMcpArgs command param_map
  if confirm_mode && !userConfirms then
    create_result command false "" "Execution cancelled by user"
  else
    match callOutcome with
    | Except.error (McpFailure.configError m) => create_result command false "" m
    | Except.error (McpFailure.executionError m) => create_result command false "" m
    | Except.error (McpFailure.otherExc m) =>
        create_result command false "" ("MCP execution error: " ++ m)
    | Except.ok r =>
        if r.isError then
          create_result command false (mcpErrorDump r)
            "MCP tool returned an error"
        else
          create_result command true (mcpOutputText r) ""

/-- C6: every failure of an MCP execution comes back as a structured
result: `ConfigError` and `ExecutionError` yield `success = false` with
the exception's message, any other exception yields `success = false`
with a `"MCP execution error: ..."` message, and `success = true` holds
exactly when the call was made (not cancelled) and returned without
`isError`.  The embedding is a total function, so no exception can
escape to the caller. -/
theorem execute_mcp_error_handling (command : Command)
    (parameters : PyDict PyVal) (confirm_mode userConfirms : Bool)
    (outcome : Except McpFailure McpCallResult)
    (hrun : (confirm_mode && !userConfirms) = false) :
    (∀ m, outcome = Except.error (McpFailure.configError m) →
      (executor_execute_mcp command parameters confirm_mode userConfirms
        outcome).success = false ∧
      (executor_execute_mcp command parameters confirm_mode userConfirms
        outcome).error = m) ∧
    (∀ m, outcome = Except.error (McpFailure.executionError m) →
      (executor_execute_mcp command parameters confirm_mode userConfirms
        outcome).success = false ∧
      (executor_execute_mcp command parameters confirm_mode userConfirms
        outcome).error = m) ∧
    (∀ m, outcome = Except.error (McpFailure.otherExc m) →
      (executor_execute_mcp command parameters confirm_mode userConfirms
        outcome).success = false ∧
      (executor_execute_mcp command parameters confirm_mode userConfirms
        outcome).error = "MCP execution error: " ++ m) ∧
    ((executor_execute_mcp command parameters confirm_mode userConfirms
        outcome).success = true ↔
      ∃ r, outcome = Except.ok r ∧ r.isError = false) := by
  unfold executor_execute_mcp
  rw [hrun]
  simp only [Bool.false_eq_true, if_neg (by simp : ¬ (false = true))]
  refine ⟨?_, ?_, ?_, ?_⟩
  · intro m hm
    rw [hm]
    exact ⟨rfl, rfl⟩
  · intro m hm
    rw [hm]
    exact ⟨rfl, rfl⟩
  · intro m hm
    rw [hm]
    exact ⟨rfl, rfl⟩
  · cases outcome with
    | error e =>
      cases e <;> simp [create_result]
    | ok r =>
      cases hie : r.isError with
      | true => simp [hie, create_result]
      | false =>
        simp [hie, create_result]

/-- C6 witness: a `ConfigError` outcome at concrete inputs yields the
structured failure shape. -/
theorem execute_mcp_error_handling_witness :
    (executor_execute_mcp
        { id := "c", name := "c", parameters := [],
          action := { server_id := "s", tool := "t", default_args := [] } }
        [] false true
        (Except.error (McpFailure.configError "Server not found: s"))).success
      = false ∧
    (executor_execute_mcp
        { id := "c", name := "c", parameters := [],
          action := { server_id := "s", tool := "t", default_args := [] } }
        [] false true
        (Except.error (McpFailure.configError "Server not found: s"))).error
      = "Server not found: s" :=
  (execute_mcp_error_handling
    { id := "c", name := "c", parameters := [],
      action := { server_id := "s", tool := "t", default_args := [] } }
    [] false true
    (Except.error (McpFailure.configError "Server not found: s"))
    (by decide)).1 "Server not found: s" rfl

/-!
## `MCPClientManager` (src/backend/mcp_client.py) and the secret store
(src/backend/secret_store.py)

Secrets are stored in the keychain under the username
`f"{server_id}:{key_name}"`; `set_secret` deletes on a falsy value.
`_open_session` resolves the transport configuration: the OAuth path
queries the Composio broker and forces the HTTP-streaming transport;
the standard path reads per-server secrets and renders header/query/env
templates.
-/

/-- A server configuration record (the `sse`/`http`/`stdio` sub-dicts
are flattened; a missing URL or command is the empty string, and
header/query/env entries are (key, value-template) pairs). -/
structure Server where
  id : String
  name : String
  transport : String
  enabled : Bool
  oauth_connection_id : Option String
  secret_fields : List String
  sse_url : String
  sse_headers : List (String × String)
  sse_query_params : List (String × String)
  http_url : String
  http_headers : List (String × String)
  http_query_params : List (String × String)
  stdio_command : String
  stdio_args : List String
  stdio_env : List (String × String)
deriving DecidableEq, Repr

/-- The keychain contents: per-server secrets keyed by
`f"{server_id}:{key_name}"`, plus the global Composio API key. -/
structure SecretStore where
  perServer : PyDict String
  composioApiKey : Option String
deriving DecidableEq, Repr

/-- `_username(server_id, key_name)`. -/
def secret_username (sid key : String) : String := sid ++ ":" ++ key

/-- Delete a dictionary key (`keyring.delete_password`; missing keys
are ignored). -/
def delk {α : Type} (m : PyDict α) (k : String) : PyDict α :=
  m.filter (fun p => p.1 ≠ k)

theorem getv_delk {α : Type} (m : PyDict α) (k k' : String) :
    getv (delk m k) k' = if k' = k then Option.none else getv m k' := by
  induction m with
  | nil => by_cases h : k' = k <;> simp [delk, getv, h]
  | cons p m ih =>
    obtain ⟨k₀, v₀⟩ := p
    by_cases h0 : k₀ = k
    · subst h0
      have hf : delk ((k₀, v₀) :: m) k₀ = delk m k₀ := by
        simp [delk]
      rw [hf, ih]
      by_cases h : k' = k₀
      · simp [h]
      · simp [h, getv]
    · have hf : delk ((k₀, v₀) :: m) k = (k₀, v₀) :: delk m k := by
        simp [delk, h0]
      rw [hf]
      by_cases h : k' = k₀
      · subst h
        simp [getv, h0]
      · simp [getv, h, ih]

/-- `_render_template`: replace `{{key}}` with `context.get(key.strip(),
"")` (fuel-indexed leftmost scan of `\{\{([^}]+)\}\}`). -/
def renderTemplateF (context : PyDict String) : Nat → List Char → List Char
  | 0, l => l
  | _ + 1, [] => []
  | f + 1, c :: cs =>
      if c = '{' then
        match cs with
        | '{' :: cs' =>
            match spanBrace cs' with
            | some (cont, rest) =>
                if cont = [] then '{' :: renderTemplateF context f cs
                else
                  match rest with
                  | '}' :: tl =>
                      ((getv context (String.mk (stripEnds cont))).getD
                        "").data ++ renderTemplateF context f tl
                  | _ => '{' :: renderTemplateF context f cs
            | Option.none => '{' :: renderTemplateF context f cs
        | _ => '{' :: renderTemplateF context f cs
      else c :: renderTemplateF context f cs

/-- `_render_template` on strings. -/
def render_template (value : String) (context : PyDict String) : String :=
  String.mk (renderTemplateF context value.data.length value.data)

/-- `_build_headers` / `_build_query_params` / `_build_stdio_env`:
entries with a falsy key are skipped, values are template-rendered. -/
def build_entries (entries : List (String × String))
    (secrets : PyDict String) : PyDict String :=
  entries.foldl (fun acc kv =>
    if kv.1 = "" then acc
    else setk acc kv.1 (render_template kv.2 secrets)) []

/-- `_get_secret_values`: collect the server's configured secrets that
are present and non-empty in the keychain. -/
def get_secret_values (server : Server) (store : SecretStore) :
    PyDict String :=
  server.secret_fields.foldl (fun vals k =>
    if k = "" then vals
    else
      match getv store.perServer (secret_username server.id k) with
      | some s => if s = "" then vals else setk vals k s
      | Option.none => vals) []

/-- Python `str.lower()` for the ASCII status strings compared by the
broker check (`String.toLower` is not kernel-reducible, so the map is
taken over the character list). -/
def pyLower (s : String) : String := String.mk (s.data.map Char.toLower)

/-- Errors of the MCP session layer. -/
inductive McpErr : Type where
  | config (msg : String)
  | execution (msg : String)
deriving DecidableEq, Repr

/-- The Composio broker's answer for a connection id. -/
structure ComposioConnection where
  status : String
  mcpEndpoint : String
deriving DecidableEq, Repr

/-- The transport session `_open_session` would open: which client is
used, with which URL/headers (query parameters are recorded separately,
before `_apply_query_params` merges them into the URL). -/
inductive SessionSpec : Type where
  | httpStream (url : String) (query_params : PyDict String)
      (headers : PyDict String)
  | sse (url : String) (query_params : PyDict String)
      (headers : PyDict String)
  | stdio (command : String) (args : List String) (env : PyDict String)
deriving DecidableEq, Repr

/-- `_open_session`: the configuration-resolution part, as a pure
function of the server record, the secret store, and the broker's
answer (`broker` is only consulted on the OAuth path). -/
def open_session (server : Server) (store : SecretStore)
    (broker : Except String ComposioConnection) :
    Except McpErr SessionSpec :=
  if server.enabled = false then
    Except.error (McpErr.config ("Server '" ++ server.name ++ "' is disabled"))
  else
    match server.oauth_connection_id with
    | some _ =>
        match store.composioApiKey with
        | Option.none =>
            Except.error (McpErr.config "Composio API key not configured")
        | some key =>
            match broker with
            | Except.error e =>
                Except.error (McpErr.config
                  ("Failed to get Composio connection: " ++ e))
            | Except.ok conn =>
                if pyLower conn.status ≠ "active" then
                  Except.error (McpErr.config
                    ("OAuth connection not active: " ++ conn.status))
                else if conn.mcpEndpoint = "" then
                  Except.error (McpErr.config
                    ("Failed to get Composio MCP endpoint for '"
                      ++ server.name ++ "'"))
                else
                  Except.ok (SessionSpec.httpStream conn.mcpEndpoint []
                    [("x-api-key", key)])
    | Option.none =>
        let secrets := get_secret_values server store
        if server.transport = "sse" then
          if server.sse_url = "" then
            Except.error (McpErr.config
              ("SSE server '" ++ server.name ++ "' is missing a URL"))
          else
            Except.ok (SessionSpec.sse server.sse_url
              (build_entries server.sse_query_params secrets)
              (build_entries server.sse_headers secrets))
        else if server.transport = "http" then
          if server.http_url = "" then
            Except.error (McpErr.config
              ("HTTP server '" ++ server.name ++ "' is missing a URL"))
          else
            Except.ok (SessionSpec.httpStream server.http_url
              (build_entries server.http_query_params secrets)
              (build_entries server.http_headers secrets))
        else if server.transport = "stdio" then
          if server.stdio_command = "" then
            Except.error (McpErr.config
              ("STDIO server '" ++ server.name ++ "' is missing a command"))
          else
            Except.ok (SessionSpec.stdio server.stdio_command
              server.stdio_args (build_entries server.stdio_env secrets))
        else
          Except.error (McpErr.config
            ("Unsupported transport '" ++ server.transport ++ "' for server '"
              ++ server.name ++ "'"))

/-- C7: on the OAuth path (`oauth_connection_id` set) the session
resolution (i) never reads the server's per-key secrets — its outcome
is identical for any contents of the per-server secret store; (ii)
compares the broker's status case-insensitively against `"active"` and
fails with a ConfigError on any non-active status; (iii) on an active
status opens an HTTP-streaming session against the broker-returned
endpoint with the broker API key as the `x-api-key` header, regardless
of the server's stored `transport` field (the server record, including
its transport, is universally quantified). -/
theorem open_session_oauth (server : Server) (cid : String)
    (hoa : server.oauth_connection_id = some cid) :
    (∀ (ps₁ ps₂ : PyDict String) (ck : Option String)
      (broker : Except String ComposioConnection),
      open_session server ⟨ps₁, ck⟩ broker
        = open_session server ⟨ps₂, ck⟩ broker) ∧
    (∀ (store : SecretStore) (conn : ComposioConnection) (key : String),
      server.enabled = true → store.composioApiKey = some key →
      pyLower conn.status ≠ "active" →
      open_session server store (Except.ok conn)
        = Except.error (McpErr.config
            ("OAuth connection not active: " ++ conn.status))) ∧
    (∀ (store : SecretStore) (conn : ComposioConnection) (key : String),
      server.enabled = true → store.composioApiKey = some key →
      pyLower conn.status = "active" → conn.mcpEndpoint ≠ "" →
      open_session server store (Except.ok conn)
        = Except.ok (SessionSpec.httpStream conn.mcpEndpoint []
            [("x-api-key", key)])) := by
  refine ⟨?_, ?_, ?_⟩
  · intro ps₁ ps₂ ck broker
    unfold open_session
    by_cases hen : server.enabled = false
    · rw [if_pos hen, if_pos hen]
    · rw [if_neg hen, if_neg hen, hoa]
  · intro store conn key hen hkey hstatus
    unfold open_session
    rw [if_neg (by simp [hen]), hoa, hkey]
    dsimp only
    rw [if_pos hstatus]
  · intro store conn key hen hkey hstatus hurl
    unfold open_session
    rw [if_neg (by simp [hen]), hoa, hkey]
    dsimp only
    rw [if_neg (fun hc => hc hstatus), if_neg hurl]

/-- C7 witness: broker status `"ACTIVE"` (uppercase) with endpoint
`https://x/mcp` opens HTTP-streaming against that endpoint even though
the stored transport is `"sse"`; and the resolution is independent of
the per-server secrets. -/
theorem open_session_oauth_witness :
    (open_session
        { id := "s1", name := "gh", transport := "sse", enabled := true,
          oauth_connection_id := some "conn1", secret_fields := ["API_KEY"],
          sse_url := "https://other", sse_headers := [],
          sse_query_params := [], http_url := "", http_headers := [],
          http_query_params := [], stdio_command := "", stdio_args := [],
          stdio_env := [] }
        ⟨[("s1:API_KEY", "local-secret")], some "ck"⟩
        (Except.ok ⟨"ACTIVE", "https://x/mcp"⟩)
      = Except.ok (SessionSpec.httpStream "https://x/mcp" []
          [("x-api-key", "ck")])) ∧
    (open_session
        { id := "s1", name := "gh", transport := "sse", enabled := true,
          oauth_connection_id := some "conn1", secret_fields := ["API_KEY"],
          sse_url := "https://other", sse_headers := [],
          sse_query_params := [], http_url := "", http_headers := [],
          http_query_params := [], stdio_command := "", stdio_args := [],
          stdio_env := [] }
        ⟨[("s1:API_KEY", "local-secret")], some "ck"⟩
        (Except.ok ⟨"ACTIVE", "https://x/mcp"⟩)
      = open_session
        { id := "s1", name := "gh", transport := "sse", enabled := true,
          oauth_connection_id := some "conn1", secret_fields := ["API_KEY"],
          sse_url := "https://other", sse_headers := [],
          sse_query_params := [], http_url := "", http_headers := [],
          http_query_params := [], stdio_command := "", stdio_args := [],
          stdio_env := [] }
        ⟨[], some "ck"⟩
        (Except.ok ⟨"ACTIVE", "https://x/mcp"⟩)) :=
  ⟨(open_session_oauth _ "conn1" rfl).2.2 _ ⟨"ACTIVE", "https://x/mcp"⟩ "ck"
      rfl rfl (by decide) (by decide),
   (open_session_oauth _ "conn1" rfl).1
      [("s1:API_KEY", "local-secret")] [] (some "ck")
      (Except.ok ⟨"ACTIVE", "https://x/mcp"⟩)⟩

/-- Serialized tool entries, opaque to the caching/validation logic. -/
abbrev ToolEntry := String

/-- The manager's mutable state: the server configs and the per-server
tool cache (`{"timestamp": ..., "tools": [...]}`). -/
structure McpState where
  servers : PyDict Server
  toolCache : PyDict (Int × List ToolEntry)
deriving DecidableEq, Repr

/-- `_get_tools_for_server`: serve from a fresh cache entry, otherwise
open a session (whose failures propagate) and fetch; `fetched` is the
oracle for the tools the live server would report. -/
def get_tools_for_server (st : McpState) (server : Server)
    (force_refresh : Bool) (now ttl : Int) (store : SecretStore)
    (broker : Except String ComposioConnection)
    (fetched : List ToolEntry) : Except McpErr (List ToolEntry) :=
  match getv st.toolCache server.id with
  | some entry =>
      if force_refresh = false ∧ now - entry.1 < ttl then Except.ok entry.2
      else (open_session server store broker).map (fun _ => fetched)
  | Option.none => (open_session server store broker).map (fun _ => fetched)

/-- `list_tools(server_id)` with an explicit id. -/
def list_tools_for_id (st : McpState) (sid : String) (force_refresh : Bool)
    (now ttl : Int) (store : SecretStore)
    (broker : Except String ComposioConnection)
    (fetched : List ToolEntry) : Except McpErr (List ToolEntry) :=
  match getv st.servers sid with
  | Option.none => Except.error (McpErr.config ("Server not found: " ++ sid))
  | some server =>
      get_tools_for_server st server force_refresh now ttl store broker fetched

/-- `call_tool`: resolve the server, open a session, then perform the
call (whose outcome is the oracle `callOut`). -/
def call_tool_resolve (st : McpState) (sid : String) (store : SecretStore)
    (broker : Except String ComposioConnection)
    (callOut : Except McpErr McpCallResult) : Except McpErr McpCallResult :=
  match getv st.servers sid with
  | Option.none => Except.error (McpErr.config ("Server not found: " ++ sid))
  | some server => (open_session server store broker).bind (fun _ => callOut)

/-- C8, amended: an unknown server id always fails with ConfigError,
for discovery and calls alike; a disabled server fails with ConfigError
on every call and on every discovery that cannot be served from a fresh
cache entry (cold cache, forced refresh, or expired timestamp).  A
disabled server's tools can still be served from a warm cache — see the
counterexample. -/
theorem mcp_unknown_or_disabled (st : McpState) (sid : String)
    (force_refresh : Bool) (now ttl : Int) (store : SecretStore)
    (broker : Except String ComposioConnection)
    (fetched : List ToolEntry) (callOut : Except McpErr McpCallResult) :
    (getv st.servers sid = Option.none →
      list_tools_for_id st sid force_refresh now ttl store broker fetched
        = Except.error (McpErr.config ("Server not found: " ++ sid)) ∧
      call_tool_resolve st sid store broker callOut
        = Except.error (McpErr.config ("Server not found: " ++ sid))) ∧
    (∀ server, getv st.servers sid = some server → server.enabled = false →
      call_tool_resolve st sid store broker callOut
        = Except.error (McpErr.config
            ("Server '" ++ server.name ++ "' is disabled")) ∧
      (getv st.toolCache server.id = Option.none →
        list_tools_for_id st sid force_refresh now ttl store broker fetched
          = Except.error (McpErr.config
              ("Server '" ++ server.name ++ "' is disabled"))) ∧
      (∀ entry, getv st.toolCache server.id = some entry →
        ¬(force_refresh = false ∧ now - entry.1 < ttl) →
        list_tools_for_id st sid force_refresh now ttl store broker fetched
          = Except.error (McpErr.config
              ("Server '" ++ server.name ++ "' is disabled")))) := by
  have hdis : ∀ server : Server, server.enabled = false →
      open_session server store broker
        = Except.error (McpErr.config
            ("Server '" ++ server.name ++ "' is disabled")) := by
    intro server h
    unfold open_session
    rw [if_pos h]
  constructor
  · intro hnone
    unfold list_tools_for_id call_tool_resolve
    rw [hnone]
    exact ⟨rfl, rfl⟩
  · intro server hsome hdisabled
    refine ⟨?_, ?_, ?_⟩
    · unfold call_tool_resolve
      rw [hsome]
      dsimp only
      rw [hdis server hdisabled]
      rfl
    · intro hcache
      unfold list_tools_for_id get_tools_for_server
      rw [hsome]
      dsimp only
      rw [hcache]
      dsimp only
      rw [hdis server hdisabled]
      rfl
    · intro entry hcache hstale
      unfold list_tools_for_id get_tools_for_server
      rw [hsome]
      dsimp only
      rw [hcache]
      dsimp only
      rw [if_neg hstale, hdis server hdisabled]
      rfl

/-- C8 counterexample: a disabled server whose cache entry is fresh
(`now - timestamp < ttl`, no forced refresh) is served its cached tools
with no ConfigError, so "the operation fails with ConfigError" does not
hold for discovery on a warm cache. -/
theorem list_tools_disabled_warm_cache_no_error :
    list_tools_for_id
        { servers := [("s1",
            { id := "s1", name := "srv", transport := "http",
              enabled := false, oauth_connection_id := Option.none,
              secret_fields := [], sse_url := "", sse_headers := [],
              sse_query_params := [], http_url := "https://x",
              http_headers := [], http_query_params := [],
              stdio_command := "", stdio_args := [], stdio_env := [] })],
          toolCache := [("s1", (100, ["toolA"]))] }
        "s1" false 110 300 ⟨[], Option.none⟩
        (Except.error "unreachable") ["fresh"]
      = Except.ok ["toolA"] := by
  rfl

/-- C8 witness: unknown id fails for both operations; a disabled server
fails the call and the cold-cache discovery. -/
theorem mcp_unknown_or_disabled_witness :
    (list_tools_for_id { servers := [], toolCache := [] } "nope" false 0 300
        ⟨[], Option.none⟩ (Except.error "e") []
      = Except.error (McpErr.config "Server not found: nope")) ∧
    (call_tool_resolve
        { servers := [("s1",
            { id := "s1", name := "srv", transport := "http",
              enabled := false, oauth_connection_id := Option.none,
              secret_fields := [], sse_url := "", sse_headers := [],
              sse_query_params := [], http_url := "https://x",
              http_headers := [], http_query_params := [],
              stdio_command := "", stdio_args := [], stdio_env := [] })],
          toolCache := [] }
        "s1" ⟨[], Option.none⟩ (Except.error "e")
        (Except.ok ⟨false, Option.none, Option.none⟩)
      = Except.error (McpErr.config "Server 'srv' is disabled")) := by
  constructor
  · have h := (mcp_unknown_or_disabled { servers := [], toolCache := [] }
      "nope" false 0 300 ⟨[], Option.none⟩ (Except.error "e") []
      (Except.ok ⟨false, Option.none, Option.none⟩)).1 rfl
    exact h.1
  · have h := (mcp_unknown_or_disabled
      { servers := [("s1",
          { id := "s1", name := "srv", transport := "http",
            enabled := false, oauth_connection_id := Option.none,
            secret_fields := [], sse_url := "", sse_headers := [],
            sse_query_params := [], http_url := "https://x",
            http_headers := [], http_query_params := [],
            stdio_command := "", stdio_args := [], stdio_env := [] })],
        toolCache := [] }
      "s1" false 0 300 ⟨[], Option.none⟩ (Except.error "e") []
      (Except.ok ⟨false, Option.none, Option.none⟩)).2
      { id := "s1", name := "srv", transport := "http",
        enabled := false, oauth_connection_id := Option.none,
        secret_fields := [], sse_url := "", sse_headers := [],
        sse_query_params := [], http_url := "https://x",
        http_headers := [], http_query_params := [],
        stdio_command := "", stdio_args := [], stdio_env := [] }
      rfl rfl
    exact h.1

/-- `set_secret`: empty ids are rejected with a ValueError; a falsy
value (None or `""`) deletes the stored secret instead of storing it. -/
def set_secret (store : PyDict String) (sid key : String)
    (value : Option String) : Except String (PyDict String) :=
  if sid = "" ∨ key = "" then
    Except.error "server_id and key_name are required and cannot be empty"
  else
    match value with
    | Option.none => Except.ok (delk store (secret_username sid key))
    | some v =>
        if v = "" then Except.ok (delk store (secret_username sid key))
        else Except.ok (setk store (secret_username sid key) v)

/-- The `for key, value in secrets.items(): set_secret(...)` loop of
`update_secrets` (an exception aborts the loop). -/
def fold_set_secrets (store : PyDict String) (sid : String)
    (secrets : List (String × Option String)) :
    Except String (PyDict String) :=
  secrets.foldl (fun acc kv => acc.bind (fun st => set_secret st sid kv.1 kv.2))
    (Except.ok store)

/-- `update_secrets`: unknown server ids fail with ConfigError before
anything is stored; on success the tool-cache entry for the server is
removed unconditionally.  The result is the new keychain contents and
the new cache. -/
def update_secrets (servers : PyDict Server)
    (cache : PyDict (Int × List ToolEntry)) (store : PyDict String)
    (sid : String) (secrets : List (String × Option String)) :
    Except String (PyDict String × PyDict (Int × List ToolEntry)) :=
  if (getv servers sid).isSome then
    match fold_set_secrets store sid secrets with
    | Except.ok store' => Except.ok (store', delk cache sid)
    | Except.error e => Except.error e
  else Except.error ("Server not found: " ++ sid)

theorem fold_set_secrets_error (sid : String)
    (entries : List (String × Option String)) (e : String) :
    entries.foldl
        (fun acc kv => acc.bind (fun st => set_secret st sid kv.1 kv.2))
        (Except.error e) = Except.error e := by
  induction entries with
  | nil => rfl
  | cons kv rest ih => simpa [Except.bind] using ih

theorem secret_username_inj (sid k k' : String) (h : k ≠ k') :
    secret_username sid k ≠ secret_username sid k' := by
  intro hc
  apply h
  have hd := congrArg String.data hc
  unfold secret_username at hd
  simp only [String.data_append, List.append_assoc] at hd
  have h2 : k.data = k'.data :=
    List.append_cancel_left (List.append_cancel_left hd)
  cases k
  cases k'
  simp only at h2
  rw [h2]

theorem fold_set_secrets_preserve (sid : String) :
    ∀ (entries : List (String × Option String)) (store store' : PyDict String)
      (u : String),
    (∀ kv ∈ entries, secret_username sid kv.1 ≠ u) →
    fold_set_secrets store sid entries = Except.ok store' →
    getv store' u = getv store u := by
  intro entries
  induction entries with
  | nil =>
    intro store store' u _ hfold
    cases hfold
    rfl
  | cons kv rest ih =>
    intro store store' u hne hfold
    obtain ⟨k₀, v₀⟩ := kv
    unfold fold_set_secrets at hfold
    rw [List.foldl_cons] at hfold
    cases hset : set_secret store sid k₀ v₀ with
    | error e =>
      rw [show (Except.ok store).bind
            (fun st => set_secret st sid k₀ v₀) = Except.error e from by
          simpa [Except.bind] using hset] at hfold
      rw [fold_set_secrets_error] at hfold
      cases hfold
    | ok st₁ =>
      rw [show (Except.ok store).bind
            (fun st => set_secret st sid k₀ v₀) = Except.ok st₁ from by
          simpa [Except.bind] using hset] at hfold
      have h1 : getv store' u = getv st₁ u :=
        ih st₁ store' u (fun kv hkv => hne kv (List.mem_cons_of_mem _ hkv))
          hfold
      have hu : secret_username sid k₀ ≠ u :=
        hne (k₀, v₀) (List.mem_cons_self _ _)
      have h2 : getv st₁ u = getv store u := by
        unfold set_secret at hset
        by_cases hz : sid = "" ∨ k₀ = ""
        · rw [if_pos hz] at hset
          cases hset
        · rw [if_neg hz] at hset
          cases v₀ with
          | none =>
            cases hset
            rw [getv_delk, if_neg (fun hc => hu hc.symm)]
          | some v =>
            have hset' : (if v = "" then
                Except.ok (delk store (secret_username sid k₀))
              else Except.ok (setk store (secret_username sid k₀) v))
                = Except.ok st₁ := hset
            by_cases hv : v = ""
            · rw [if_pos hv] at hset'
              cases hset'
              rw [getv_delk, if_neg (fun hc => hu hc.symm)]
            · rw [if_neg hv] at hset'
              cases hset'
              rw [getv_setk, if_neg (fun hc => hu hc.symm)]
      rw [h1, h2]

theorem fold_set_secrets_ok (sid : String) (hsid : sid ≠ "") :
    ∀ (entries : List (String × Option String)) (store : PyDict String),
    (∀ kv ∈ entries, kv.1 ≠ "") → (entries.map Prod.fst).Nodup →
    ∃ store', fold_set_secrets store sid entries = Except.ok store' ∧
      ∀ k v, (k, v) ∈ entries → (v = Option.none ∨ v = some "") →
        getv store' (secret_username sid k) = Option.none := by
  intro entries
  induction entries with
  | nil =>
    intro store _ _
    exact ⟨store, rfl, by intro k v hkv; simp at hkv⟩
  | cons kv rest ih =>
    intro store hkeys hnd
    obtain ⟨k₀, v₀⟩ := kv
    have hk₀ : k₀ ≠ "" := hkeys (k₀, v₀) (List.mem_cons_self _ _)
    simp only [List.map_cons, List.nodup_cons] at hnd
    have hz : ¬ (sid = "" ∨ k₀ = "") := by
      intro hc
      rcases hc with hc | hc
      · exact hsid hc
      · exact hk₀ hc
    -- the first set_secret succeeds with some st₁
    obtain ⟨st₁, hset, hdel⟩ :
        ∃ st₁, set_secret store sid k₀ v₀ = Except.ok st₁ ∧
          ((v₀ = Option.none ∨ v₀ = some "") →
            getv st₁ (secret_username sid k₀) = Option.none) := by
      cases v₀ with
      | none =>
        refine ⟨delk store (secret_username sid k₀), ?_, fun _ => ?_⟩
        · simp [set_secret, hz]
        · rw [getv_delk, if_pos rfl]
      | some v =>
        by_cases hv : v = ""
        · refine ⟨delk store (secret_username sid k₀), ?_, fun _ => ?_⟩
          · simp [set_secret, hz, hv]
          · rw [getv_delk, if_pos rfl]
        · refine ⟨setk store (secret_username sid k₀) v, ?_, fun hc => ?_⟩
          · simp [set_secret, hz, hv]
          · rcases hc with hc | hc
            · cases hc
            · cases hc
              exact absurd rfl hv
    obtain ⟨store', hfold, hrest⟩ :=
      ih st₁ (fun kv hkv => hkeys kv (List.mem_cons_of_mem _ hkv)) hnd.2
    refine ⟨store', ?_, ?_⟩
    · unfold fold_set_secrets
      rw [List.foldl_cons,
        show (Except.ok store).bind (fun st => set_secret st sid k₀ v₀)
          = Except.ok st₁ from by simpa [Except.bind] using hset]
      exact hfold
    · intro k v hkv hempty
      rcases List.mem_cons.mp hkv with hkv | hkv
      · cases hkv
        have hpres : getv store' (secret_username sid k₀)
            = getv st₁ (secret_username sid k₀) := by
          refine fold_set_secrets_preserve sid rest st₁ store' _ ?_ hfold
          intro kv' hkv'
          apply secret_username_inj
          intro hc
          apply hnd.1
          rw [← hc]
          exact List.mem_map_of_mem Prod.fst hkv'
        rw [hpres]
        exact hdel hempty
      · exact hrest k v hkv hempty

/-- C9: `updateSecrets` fails with ConfigError (storing nothing) when
the server id is unknown; otherwise each key given a null/empty value
ends up deleted from the keychain rather than stored empty, and the
server's tool-cache entry is removed in every successful call,
regardless of whether any secret value changed.  The side conditions —
a non-empty server id, non-empty keys, and distinct keys — hold for
every call coming from a Python dict of real secret fields. -/
theorem update_secrets_spec (servers : PyDict Server)
    (cache : PyDict (Int × List ToolEntry)) (store : PyDict String)
    (sid : String) (secrets : List (String × Option String))
    (hsid : sid ≠ "")
    (hkeys : ∀ kv ∈ secrets, kv.1 ≠ "")
    (hnd : (secrets.map Prod.fst).Nodup) :
    (getv servers sid = Option.none →
      update_secrets servers cache store sid secrets
        = Except.error ("Server not found: " ++ sid)) ∧
    ((getv servers sid).isSome = true →
      ∃ store', update_secrets servers cache store sid secrets
          = Except.ok (store', delk cache sid) ∧
        (∀ k v, (k, v) ∈ secrets → (v = Option.none ∨ v = some "") →
          getv store' (secret_username sid k) = Option.none) ∧
        getv (delk cache sid) sid = Option.none) := by
  constructor
  · intro hnone
    unfold update_secrets
    rw [if_neg (by rw [hnone]; simp)]
  · intro hsome
    obtain ⟨store', hfold, hdel⟩ :=
      fold_set_secrets_ok sid hsid secrets store hkeys hnd
    refine ⟨store', ?_, hdel, ?_⟩
    · unfold update_secrets
      rw [if_pos hsome, hfold]
    · rw [getv_delk, if_pos rfl]

/-- C9 witness: on a known server, a null value for `"token"` and an
empty value for `"apiKey"` both delete, and the cache entry vanishes. -/
theorem update_secrets_spec_witness :
    ∃ store', update_secrets
        [("s1",
          { id := "s1", name := "srv", transport := "http",
            enabled := true, oauth_connection_id := Option.none,
            secret_fields := ["token", "apiKey"], sse_url := "",
            sse_headers := [], sse_query_params := [],
            http_url := "https://x", http_headers := [],
            http_query_params := [], stdio_command := "",
            stdio_args := [], stdio_env := [] })]
        [("s1", ((5 : Int), ["t"]))]
        [("s1:token", "old")] "s1"
        [("token", Option.none), ("apiKey", some "")]
        = Except.ok (store', delk [("s1", ((5 : Int), ["t"]))] "s1") ∧
      getv store' (secret_username "s1" "token") = Option.none ∧
      getv store' (secret_username "s1" "apiKey") = Option.none ∧
      getv (delk [("s1", ((5 : Int), ["t"]))] "s1") "s1" = Option.none := by
  obtain ⟨store', h1, h2, h3⟩ := (update_secrets_spec
    [("s1",
      { id := "s1", name := "srv", transport := "http",
        enabled := true, oauth_connection_id := Option.none,
        secret_fields := ["token", "apiKey"], sse_url := "",
        sse_headers := [], sse_query_params := [],
        http_url := "https://x", http_headers := [],
        http_query_params := [], stdio_command := "",
        stdio_args := [], stdio_env := [] })]
    [("s1", ((5 : Int), ["t"]))]
    [("s1:token", "old")] "s1"
    [("token", Option.none), ("apiKey", some "")]
    (by decide) (by decide) (by decide)).2 (by decide)
  exact ⟨store', h1,
    h2 "token" Option.none (by decide) (Or.inl rfl),
    h2 "apiKey" (some "") (by decide) (Or.inr rfl), h3⟩

/-!
## `CommandManager._generate_tool_name` / `get_claude_tools`
(src/backend/command_manager.py)

A command id is sanitized into a base (`[^a-zA-Z0-9_-]` → `_`,
collapse, strip, fallback `"tool"`, truncate to 120); on collision a
numeric suffix `_1`, `_2`, … is appended, trimming the base so that the
candidate respects the 128-character cap; the first candidate that is
unused (or already mapped to this very id) wins.

The uniqueness argument needs injectivity of `Nat.repr` and the fact
that its characters are decimal digits; these are proved first.
-/

/-- The decimal value of a digit list (accumulator form). -/
def valDigitsAux : Nat → List Char → Nat
  | a, [] => a
  | a, c :: cs => valDigitsAux (10 * a + (c.toNat - 48)) cs

theorem valDigitsAux_append (a : Nat) (xs ys : List Char) :
    valDigitsAux a (xs ++ ys) = valDigitsAux (valDigitsAux a xs) ys := by
  induction xs generalizing a with
  | nil => rfl
  | cons c cs ih =>
    show valDigitsAux (10 * a + (c.toNat - 48)) (cs ++ ys)
      = valDigitsAux (valDigitsAux (10 * a + (c.toNat - 48)) cs) ys
    exact ih (10 * a + (c.toNat - 48))

theorem digitChar_val : ∀ d, d < 10 → (Nat.digitChar d).toNat - 48 = d := by
  intro d hd
  interval_cases d <;> rfl

theorem digitChar_isDigit : ∀ d, d < 10 → (Nat.digitChar d).isDigit = true := by
  intro d hd
  interval_cases d <;> rfl

theorem toDigitsCore_acc (f : Nat) :
    ∀ (n : Nat) (ds : List Char),
      Nat.toDigitsCore 10 f n ds = Nat.toDigitsCore 10 f n [] ++ ds := by
  induction f with
  | zero => intro n ds; rfl
  | succ f ih =>
    intro n ds
    simp only [Nat.toDigitsCore]
    by_cases h : n / 10 = 0
    · simp [h]
    · simp only [if_neg h]
      rw [ih (n / 10) (Nat.digitChar (n % 10) :: ds),
        ih (n / 10) [Nat.digitChar (n % 10)]]
      simp

theorem toDigitsCore_fuel :
    ∀ (n f f' : Nat), n < f → n < f' →
      Nat.toDigitsCore 10 f n [] = Nat.toDigitsCore 10 f' n [] := by
  intro n
  induction n using Nat.strong_induction_on with
  | _ n ih =>
    intro f f' hf hf'
    cases f with
    | zero => omega
    | succ g =>
      cases f' with
      | zero => omega
      | succ g' =>
        simp only [Nat.toDigitsCore]
        by_cases h : n / 10 = 0
        · simp [h]
        · simp only [if_neg h]
          rw [toDigitsCore_acc g, toDigitsCore_acc g']
          have hlt : n / 10 < n := Nat.div_lt_self (by omega) (by omega)
          rw [ih (n / 10) hlt g g' (by omega) (by omega)]

theorem val_toDigits :
    ∀ n : Nat, valDigitsAux 0 (Nat.toDigits 10 n) = n := by
  intro n
  induction n using Nat.strong_induction_on with
  | _ n ih =>
    unfold Nat.toDigits
    simp only [Nat.toDigitsCore]
    by_cases h : n / 10 = 0
    · rw [if_pos h]
      have h10 : n % 10 < 10 := Nat.mod_lt n (by norm_num)
      show 10 * 0 + ((Nat.digitChar (n % 10)).toNat - 48) = n
      rw [digitChar_val (n % 10) h10]
      omega
    · have hpos : 0 < n := by omega
      have hlt : n / 10 < n := Nat.div_lt_self hpos (by norm_num)
      have hfuel : Nat.toDigitsCore 10 n (n / 10) []
          = Nat.toDigitsCore 10 (n / 10 + 1) (n / 10) [] := by
        exact toDigitsCore_fuel (n / 10) n (n / 10 + 1) (by omega) (by omega)
      have hval := ih (n / 10) hlt
      unfold Nat.toDigits at hval
      have h10 : n % 10 < 10 := Nat.mod_lt n (by norm_num)
      rw [if_neg h, toDigitsCore_acc n (n / 10), hfuel, valDigitsAux_append,
        hval]
      show 10 * (n / 10) + ((Nat.digitChar (n % 10)).toNat - 48) = n
      rw [digitChar_val (n % 10) h10]
      omega

theorem natRepr_inj {m n : Nat} (h : Nat.repr m = Nat.repr n) : m = n := by
  have hd : Nat.toDigits 10 m = Nat.toDigits 10 n := by
    have := congrArg String.data h
    simpa [Nat.repr, List.asString] using this
  have h1 := val_toDigits m
  rw [hd, val_toDigits n] at h1
  exact h1.symm

theorem natRepr_data (n : Nat) : (Nat.repr n).data = Nat.toDigits 10 n := by
  simp [Nat.repr, List.asString]

theorem toDigitsCore_digits (f : Nat) :
    ∀ (n : Nat) (ds : List Char), (∀ c ∈ ds, c.isDigit = true) →
      ∀ c ∈ Nat.toDigitsCore 10 f n ds, c.isDigit = true := by
  induction f with
  | zero => intro n ds hds; exact hds
  | succ f ih =>
    intro n ds hds c hc
    simp only [Nat.toDigitsCore] at hc
    by_cases h : n / 10 = 0
    · simp only [h, if_pos rfl] at hc
      rcases List.mem_cons.mp hc with hc | hc
      · subst hc
        exact digitChar_isDigit (n % 10) (Nat.mod_lt n (by omega))
      · exact hds c hc
    · simp only [h, if_neg h] at hc
      refine ih (n / 10) (Nat.digitChar (n % 10) :: ds) ?_ c hc
      intro x hx
      rcases List.mem_cons.mp hx with hx | hx
      · subst hx
        exact digitChar_isDigit (n % 10) (Nat.mod_lt n (by omega))
      · exact hds x hx

theorem natRepr_digits (n : Nat) :
    ∀ c ∈ (Nat.repr n).data, c.isDigit = true := by
  rw [natRepr_data]
  exact toDigitsCore_digits (n + 1) n [] (by intro c hc; cases hc)

theorem toDigits_concat (n : Nat) :
    ∃ Y, Nat.toDigits 10 n = Y ++ [Nat.digitChar (n % 10)] := by
  unfold Nat.toDigits
  simp only [Nat.toDigitsCore]
  by_cases h : n / 10 = 0
  · exact ⟨[], by simp [h]⟩
  · simp only [h, if_neg h]
    rw [toDigitsCore_acc n (n / 10)]
    exact ⟨Nat.toDigitsCore 10 n (n / 10) [], rfl⟩

theorem natRepr_ne_nil (n : Nat) : (Nat.repr n).data ≠ [] := by
  rw [natRepr_data]
  obtain ⟨Y, hY⟩ := toDigits_concat n
  rw [hY]
  simp

/-- The character class of tool-name bases, `[a-zA-Z0-9_-]` (note: no
dot, unlike the parameter sanitizer). -/
def toolIdChar (c : Char) : Bool :=
  c.isAlphanum || c == '_' || c == '-'

/-- The base of `_generate_tool_name`: replace invalid characters by
`_`, collapse runs, strip, fall back to `"tool"`, truncate to 120. -/
def toolBase (id : String) : List Char :=
  let b1 := id.data.map (fun c => if toolIdChar c then c else '_')
  let b3 := stripU (collapseU b1)
  let b4 := if b3 = [] then "tool".data else b3
  b4.take 120

/-- The candidate built for suffix `s ≥ 1`:
`f"{base[:max(1, 128 - len(f'_{s}'))]}_{s}".strip('_') or f"tool_{s}"`. -/
def mkCandidate (base : List Char) (s : Nat) : List Char :=
  let sfx := '_' :: (Nat.repr s).data
  let avail := 128 - sfx.length
  let trimmed := base.take (max 1 avail)
  let cand := stripU (trimmed ++ sfx)
  if cand = [] then "tool_".data ++ (Nat.repr s).data else cand

/-- The sequence of candidates the while-loop tries: the bare base
first, then suffixed candidates. -/
def candSeq (base : List Char) (s : Nat) : List Char :=
  if s = 0 then base else mkCandidate base s

/-- The loop guard `candidate in self._tool_name_map and
self._tool_name_map[candidate] != command_id`. -/
def blocked (map : PyDict String) (id : String) (cand : List Char) : Bool :=
  match getv map (String.mk cand) with
  | some v => v ≠ id
  | Option.none => false

/-- The while-loop of `_generate_tool_name`, fuelled; the fuel
`map.length + 2` is proved sufficient below. -/
def genLoop (map : PyDict String) (id : String) (base : List Char) :
    Nat → Nat → List Char
  | 0, s => candSeq base s
  | f + 1, s =>
      if blocked map id (candSeq base s) then genLoop map id base f (s + 1)
      else candSeq base s

/-- `CommandManager._generate_tool_name` (the final `[:128]`). -/
def generate_tool_name (map : PyDict String) (id : String) : String :=
  String.mk ((genLoop map id (toolBase id) (map.length + 2) 0).take 128)

/-- The discovery pass of `get_claude_tools`: fold over the enabled
command ids, generating a tool name for each and recording
`_tool_name_map[name] = id`; returns the names in order and the final
map. -/
def genBatch : List String → PyDict String → List String × PyDict String
  | [], map => ([], map)
  | id :: ids, map =>
      let name := generate_tool_name map id
      let r := genBatch ids (setk map name id)
      (name :: r.1, r.2)

/-- `CommandManager.resolve_tool_command_id`. -/
def resolve_tool_command_id (map : PyDict String) (name : String) : String :=
  (getv map name).getD name

theorem head?_append_left {α : Type} (l l' : List α) (h : l ≠ []) :
    (l ++ l').head? = l.head? := by
  cases l with
  | nil => exact absurd rfl h
  | cons a as => rfl

theorem toolBase_ne_nil (id : String) : toolBase id ≠ [] := by
  unfold toolBase
  dsimp only
  by_cases h : stripU (collapseU (id.data.map
      (fun c => if toolIdChar c then c else '_'))) = []
  · rw [if_pos h]
    decide
  · rw [if_neg h]
    intro hc
    apply h
    cases hs : stripU (collapseU (id.data.map
        (fun c => if toolIdChar c then c else '_'))) with
    | nil => rfl
    | cons a as =>
      rw [hs] at hc
      simp [List.take] at hc

theorem toolBase_head (id : String) : (toolBase id).head? ≠ some '_' := by
  unfold toolBase
  dsimp only
  by_cases h : stripU (collapseU (id.data.map
      (fun c => if toolIdChar c then c else '_'))) = []
  · rw [if_pos h]
    decide
  · rw [if_neg h]
    rw [head?_take _ _ (by norm_num)]
    unfold stripU
    apply head?_dropTrailingU
    exact head?_dropWhileU _
  
theorem toolBase_length (id : String) : (toolBase id).length ≤ 120 := by
  unfold toolBase
  exact List.length_take_le 120 _

theorem natRepr_no_underscore (s : Nat) : '_' ∉ (Nat.repr s).data := by
  intro h
  have := natRepr_digits s '_' h
  simp [Char.isDigit] at this

theorem natRepr_last (s : Nat) :
    ∃ Y d, (Nat.repr s).data = Y ++ [d] ∧ d.isDigit = true := by
  rw [natRepr_data]
  obtain ⟨Y, hY⟩ := toDigits_concat s
  refine ⟨Y, Nat.digitChar (s % 10), hY, ?_⟩
  exact digitChar_isDigit (s % 10) (Nat.mod_lt s (by norm_num))

theorem mkCandidate_eq (base : List Char) (hb : base ≠ [])
    (hh : base.head? ≠ some '_') (s : Nat) :
    mkCandidate base s
      = base.take (max 1 (128 - (1 + (Nat.repr s).data.length)))
        ++ '_' :: (Nat.repr s).data := by
  unfold mkCandidate
  dsimp only
  have hlen : ('_' :: (Nat.repr s).data).length = 1 + (Nat.repr s).data.length := by
    simp [Nat.add_comm]
  rw [hlen]
  set m := max 1 (128 - (1 + (Nat.repr s).data.length)) with hm
  have htr : base.take m ≠ [] := by
    intro hc
    have := congrArg List.length hc
    simp only [List.length_take, List.length_nil] at this
    have hb' : 0 < base.length := List.length_pos.mpr hb
    have hm1 : 1 ≤ m := le_max_left _ _
    omega
  have hhead : (base.take m ++ '_' :: (Nat.repr s).data).head? ≠ some '_' := by
    rw [head?_append_left _ _ htr, head?_take _ _ (lt_of_lt_of_le one_pos (le_max_left _ _))]
    exact hh
  have hstrip : stripU (base.take m ++ '_' :: (Nat.repr s).data)
      = base.take m ++ '_' :: (Nat.repr s).data := by
    unfold stripU
    rw [dropWhileU_noop _ hhead]
    apply dropTrailingU_noop
    obtain ⟨Y, d, hY, hd⟩ := natRepr_last s
    rw [hY, show base.take m ++ '_' :: (Y ++ [d])
        = (base.take m ++ '_' :: Y) ++ [d] from by simp]
    rw [List.getLast?_concat]
    intro hc
    rw [Option.some.injEq] at hc
    rw [hc] at hd
    simp [Char.isDigit] at hd
  rw [hstrip]
  rw [if_neg (by simp [htr])]

theorem stringData_ext {a b : String} (h : a.data = b.data) : a = b := by
  cases a
  cases b
  exact congrArg String.mk h

theorem stringMk_data (s : String) : String.mk s.data = s := by
  cases s
  rfl

theorem mkCandidate_ne_base (base : List Char) (hb : base ≠ [])
    (hh : base.head? ≠ some '_') (hlen : base.length ≤ 120) (s : Nat)
    (hs : 1 ≤ s) : mkCandidate base s ≠ base := by
  intro heq
  rw [mkCandidate_eq base hb hh s] at heq
  have hl := congrArg List.length heq
  simp only [List.length_append, List.length_take, List.length_cons] at hl
  omega

theorem mkCandidate_inj_aux (base : List Char) (s t : Nat)
    (hms : max 1 (128 - (1 + (Nat.repr s).data.length))
      ≤ max 1 (128 - (1 + (Nat.repr t).data.length)))
    (heq : base.take (max 1 (128 - (1 + (Nat.repr s).data.length)))
        ++ '_' :: (Nat.repr s).data
      = base.take (max 1 (128 - (1 + (Nat.repr t).data.length)))
        ++ '_' :: (Nat.repr t).data) : s = t := by
  set ms := max 1 (128 - (1 + (Nat.repr s).data.length)) with hms_def
  set mt := max 1 (128 - (1 + (Nat.repr t).data.length)) with hmt_def
  have htk : base.take ms = (base.take mt).take ms := by
    rw [List.take_take, min_eq_left hms]
  have hsplit : base.take mt
      = base.take ms ++ (base.take mt).drop ms := by
    rw [htk]
    exact (List.take_append_drop ms (base.take mt)).symm
  rw [hsplit, List.append_assoc] at heq
  have heq2 := List.append_cancel_left heq
  cases hu : (base.take mt).drop ms with
  | nil =>
    rw [hu, List.nil_append] at heq2
    have hds : (Nat.repr s).data = (Nat.repr t).data := by
      injection heq2
    exact natRepr_inj (stringData_ext hds)
  | cons c u' =>
    rw [hu] at heq2
    simp only [List.cons_append, List.cons.injEq] at heq2
    obtain ⟨hc, hrest⟩ := heq2
    exfalso
    apply natRepr_no_underscore s
    rw [hrest]
    rw [List.mem_append]
    right
    exact List.mem_cons_self _ _

theorem mkCandidate_inj (base : List Char) (hb : base ≠ [])
    (hh : base.head? ≠ some '_') (s t : Nat) (hs : 1 ≤ s) (ht : 1 ≤ t)
    (hne : s ≠ t) : mkCandidate base s ≠ mkCandidate base t := by
  intro heq
  rw [mkCandidate_eq base hb hh s, mkCandidate_eq base hb hh t] at heq
  rcases le_total (max 1 (128 - (1 + (Nat.repr s).data.length)))
      (max 1 (128 - (1 + (Nat.repr t).data.length))) with hle | hle
  · exact hne (mkCandidate_inj_aux base s t hle heq)
  · exact hne (mkCandidate_inj_aux base t s hle heq.symm).symm

theorem candSeq_inj (base : List Char) (hb : base ≠ [])
    (hh : base.head? ≠ some '_') (hlen : base.length ≤ 120) (s t : Nat)
    (hne : s ≠ t) : candSeq base s ≠ candSeq base t := by
  unfold candSeq
  by_cases hs : s = 0
  · subst hs
    rw [if_pos rfl]
    by_cases ht : t = 0
    · exact absurd ht.symm hne
    · rw [if_neg ht]
      exact (mkCandidate_ne_base base hb hh hlen t (by omega)).symm
  · rw [if_neg hs]
    by_cases ht : t = 0
    · subst ht
      rw [if_pos rfl]
      exact mkCandidate_ne_base base hb hh hlen s (by omega)
    · rw [if_neg ht]
      exact mkCandidate_inj base hb hh s t (by omega) (by omega) hne

theorem mem_keys_of_getv {α : Type} (m : PyDict α) (k : String) (v : α)
    (h : getv m k = some v) : k ∈ m.map Prod.fst := by
  induction m with
  | nil => exact absurd h (by simp [getv])
  | cons p m ih =>
    obtain ⟨k₀, v₀⟩ := p
    by_cases hk : k = k₀
    · subst hk
      exact List.mem_cons_self _ _
    · rw [getv, if_neg hk] at h
      exact List.mem_cons_of_mem _ (ih h)

theorem exists_unblocked (map : PyDict String) (id : String) (base : List Char)
    (hb : base ≠ []) (hh : base.head? ≠ some '_') (hlen : base.length ≤ 120) :
    ∃ s, s ≤ map.length + 1 ∧ blocked map id (candSeq base s) = false := by
  by_contra hcon
  push_neg at hcon
  have hblk : ∀ s, s ≤ map.length + 1 →
      blocked map id (candSeq base s) = true := by
    intro s hs
    cases h : blocked map id (candSeq base s) with
    | false => exact absurd h (hcon s hs)
    | true => rfl
  have hmem : ∀ s, s ≤ map.length + 1 →
      String.mk (candSeq base s) ∈ map.map Prod.fst := by
    intro s hs
    have hb' := hblk s hs
    unfold blocked at hb'
    cases hg : getv map (String.mk (candSeq base s)) with
    | none => rw [hg] at hb'; exact absurd hb' (by simp)
    | some v => exact mem_keys_of_getv map _ v hg
  classical
  have hinj : Set.InjOn (fun s => String.mk (candSeq base s))
      ↑(Finset.range (map.length + 2)) := by
    intro s _ t _ hst
    by_contra hne
    exact candSeq_inj base hb hh hlen s t hne (congrArg String.data hst)
  have hcard : (Finset.image (fun s => String.mk (candSeq base s))
      (Finset.range (map.length + 2))).card = map.length + 2 := by
    rw [Finset.card_image_of_injOn hinj, Finset.card_range]
  have hsub : Finset.image (fun s => String.mk (candSeq base s))
      (Finset.range (map.length + 2)) ⊆ (map.map Prod.fst).toFinset := by
    intro x hx
    rw [Finset.mem_image] at hx
    obtain ⟨s, hs, rfl⟩ := hx
    rw [Finset.mem_range] at hs
    rw [List.mem_toFinset]
    exact hmem s (by omega)
  have h1 := Finset.card_le_card hsub
  rw [hcard] at h1
  have h2 := List.toFinset_card_le (map.map Prod.fst)
  rw [List.length_map] at h2
  omega

theorem genLoop_good (map : PyDict String) (id : String) (base : List Char) :
    ∀ (f s₀ : Nat),
    (∃ s, s₀ ≤ s ∧ s < s₀ + f ∧ blocked map id (candSeq base s) = false) →
    ∃ s, s₀ ≤ s ∧ s < s₀ + f ∧ genLoop map id base f s₀ = candSeq base s ∧
      blocked map id (candSeq base s) = false := by
  intro f
  induction f with
  | zero =>
    intro s₀ hex
    obtain ⟨s, h1, h2, _⟩ := hex
    omega
  | succ f ih =>
    intro s₀ hex
    obtain ⟨s, h1, h2, h3⟩ := hex
    by_cases hb0 : blocked map id (candSeq base s₀) = true
    · have hs0 : s ≠ s₀ := by
        intro he
        rw [he] at h3
        rw [h3] at hb0
        exact Bool.false_ne_true hb0
      obtain ⟨s', ha, hb', hc, hd⟩ :=
        ih (s₀ + 1) ⟨s, by omega, by omega, h3⟩
      refine ⟨s', by omega, by omega, ?_, hd⟩
      unfold genLoop
      rw [if_pos hb0]
      exact hc
    · have hb0' : blocked map id (candSeq base s₀) = false := by
        cases h : blocked map id (candSeq base s₀) with
        | false => rfl
        | true => exact absurd h hb0
      refine ⟨s₀, le_refl _, by omega, ?_, hb0'⟩
      unfold genLoop
      rw [if_neg hb0]

theorem candSeq_length_le (base : List Char) (hb : base ≠ [])
    (hh : base.head? ≠ some '_') (hlen : base.length ≤ 120) (s : Nat)
    (hds : (Nat.repr s).data.length ≤ 126) :
    (candSeq base s).length ≤ 128 := by
  unfold candSeq
  by_cases h0 : s = 0
  · rw [if_pos h0]
    omega
  · rw [if_neg h0]
    rw [mkCandidate_eq base hb hh s]
    simp only [List.length_append, List.length_take, List.length_cons]
    omega

theorem length_setk_fresh {α : Type} (m : PyDict α) (k : String) (v : α)
    (h : getv m k = Option.none) : (setk m k v).length = m.length + 1 := by
  induction m with
  | nil => rfl
  | cons p m ih =>
    obtain ⟨k₀, v₀⟩ := p
    by_cases hk : k = k₀
    · rw [getv, if_pos hk] at h
      exact absurd h (by simp)
    · rw [getv, if_neg hk] at h
      unfold setk
      rw [if_neg (fun he => hk he.symm)]
      simp only [List.length_cons, ih h]

theorem generate_tool_name_props (map : PyDict String) (id : String)
    (hsize : map.length + 2 ≤ 10 ^ 100) :
    (getv map (generate_tool_name map id) = Option.none ∨
      getv map (generate_tool_name map id) = some id) ∧
    (generate_tool_name map id).data.length ≤ 128 := by
  obtain ⟨s, hs, hub⟩ := exists_unblocked map id (toolBase id)
    (toolBase_ne_nil id) (toolBase_head id) (toolBase_length id)
  obtain ⟨s', h1, h2, h3, h4⟩ := genLoop_good map id (toolBase id)
    (map.length + 2) 0 ⟨s, Nat.zero_le _, by omega, hub⟩
  have hds : (Nat.repr s').data.length ≤ 126 := by
    have hlt : s' < 10 ^ 100 := by omega
    calc (Nat.repr s').data.length = (Nat.repr s').length := rfl
    _ ≤ 100 := Nat.repr_length _ _ (by norm_num) hlt
    _ ≤ 126 := by norm_num
  have hclen : (candSeq (toolBase id) s').length ≤ 128 :=
    candSeq_length_le (toolBase id) (toolBase_ne_nil id) (toolBase_head id)
      (toolBase_length id) s' hds
  have hname : generate_tool_name map id
      = String.mk (candSeq (toolBase id) s') := by
    unfold generate_tool_name
    rw [h3, List.take_of_length_le hclen]
  constructor
  · unfold blocked at h4
    cases hg : getv map (String.mk (candSeq (toolBase id) s')) with
    | none =>
      left
      rw [hname, hg]
    | some v =>
      right
      rw [hg] at h4
      have hv : v = id := by simpa using h4
      rw [hname, hg, hv]
  · rw [hname]
    exact hclen

theorem genBatch_spec : ∀ (ids : List String) (map : PyDict String),
    ids.Nodup →
    (∀ k v, getv map k = some v → v ∉ ids) →
    map.length + ids.length + 2 ≤ 10 ^ 100 →
    (∀ n ∈ (genBatch ids map).1, n.data.length ≤ 128) ∧
    (∀ n ∈ (genBatch ids map).1, getv map n = Option.none) ∧
    (genBatch ids map).1.Nodup ∧
    (∀ p ∈ (genBatch ids map).1.zip ids,
      getv (genBatch ids map).2 p.1 = some p.2) ∧
    (∀ k v, getv map k = some v → getv (genBatch ids map).2 k = some v) := by
  intro ids
  induction ids with
  | nil =>
    intro map _ _ _
    refine ⟨by simp [genBatch], by simp [genBatch], by simp [genBatch],
      by simp [genBatch], ?_⟩
    intro k v hkv
    simpa [genBatch] using hkv
  | cons id ids ih =>
    intro map hnd hfresh hsize
    obtain ⟨hget, hlen128⟩ := generate_tool_name_props map id
      (by simp only [List.length_cons] at hsize; omega)
    have hnone : getv map (generate_tool_name map id) = Option.none := by
      cases hget with
      | inl h => exact h
      | inr h => exact absurd (List.mem_cons_self id ids) (hfresh _ _ h)
    set name := generate_tool_name map id with hname_def
    set map₁ := setk map name id with hmap₁_def
    have hlen₁ : map₁.length = map.length + 1 :=
      length_setk_fresh map name id hnone
    have hnd' : ids.Nodup := (List.nodup_cons.mp hnd).2
    have hid_not : id ∉ ids := (List.nodup_cons.mp hnd).1
    have hfresh' : ∀ k v, getv map₁ k = some v → v ∉ ids := by
      intro k v hkv
      rw [hmap₁_def, getv_setk] at hkv
      by_cases hk : k = name
      · rw [if_pos hk] at hkv
        injection hkv with hv
        rw [← hv]
        exact hid_not
      · rw [if_neg hk] at hkv
        intro hmem
        exact hfresh k v hkv (List.mem_cons_of_mem _ hmem)
    have hsize' : map₁.length + ids.length + 2 ≤ 10 ^ 100 := by
      rw [hlen₁]
      simp only [List.length_cons] at hsize
      omega
    obtain ⟨A', B', C', D', E'⟩ := ih map₁ hnd' hfresh' hsize'
    have hgb : genBatch (id :: ids) map
        = (name :: (genBatch ids map₁).1, (genBatch ids map₁).2) := rfl
    rw [hgb]
    refine ⟨?_, ?_, ?_, ?_, ?_⟩
    · intro n hn
      rcases List.mem_cons.mp hn with h | h
      · rw [h]
        exact hlen128
      · exact A' n h
    · intro n hn
      rcases List.mem_cons.mp hn with h | h
      · rw [h]
        exact hnone
      · have hB := B' n h
        rw [hmap₁_def, getv_setk] at hB
        by_cases hk : n = name
        · rw [if_pos hk] at hB
          exact absurd hB (by simp)
        · rw [if_neg hk] at hB
          exact hB
    · rw [List.nodup_cons]
      refine ⟨?_, C'⟩
      intro hmem
      have hB := B' name hmem
      rw [hmap₁_def, getv_setk, if_pos rfl] at hB
      exact absurd hB (by simp)
    · intro p hp
      rw [List.zip_cons_cons] at hp
      rcases List.mem_cons.mp hp with h | h
      · rw [h]
        apply E'
        rw [hmap₁_def, getv_setk, if_pos rfl]
      · exact D' p h
    · intro k v hkv
      have hk : k ≠ name := by
        intro he
        rw [he, hnone] at hkv
        exact absurd hkv (by simp)
      apply E'
      rw [hmap₁_def, getv_setk, if_neg hk]
      exact hkv

/-- **C3.** Over one discovery pass (`get_claude_tools`) on a batch of
pairwise-distinct command ids starting from an empty tool-name map:
`_generate_tool_name` produces pairwise-distinct tool names even when the
sanitized bases collide (numeric suffixes resolve collisions), every
generated name is at most 128 characters, and `resolve_tool_command_id`
maps every generated name back to the exact command id it was generated
for, falling back to the given name exactly on unmapped names. The batch
size is bounded by `10 ^ 100` (far beyond any real configuration), which
keeps the numeric suffixes short enough that the final 128-character
truncation never fires. -/
theorem generate_tool_names_spec (ids : List String) (hnd : ids.Nodup)
    (hsize : ids.length + 2 ≤ 10 ^ 100) :
    (genBatch ids []).1.Nodup ∧
    (∀ n ∈ (genBatch ids []).1, n.data.length ≤ 128) ∧
    (∀ p ∈ (genBatch ids []).1.zip ids,
      resolve_tool_command_id (genBatch ids []).2 p.1 = p.2) ∧
    (∀ n, getv (genBatch ids []).2 n = Option.none →
      resolve_tool_command_id (genBatch ids []).2 n = n) := by
  obtain ⟨A, B, C, D, E⟩ := genBatch_spec ids [] hnd
    (by intro k v hkv; simp [getv] at hkv)
    (by simpa using hsize)
  refine ⟨C, A, ?_, ?_⟩
  · intro p hp
    unfold resolve_tool_command_id
    rw [D p hp]
    rfl
  · intro n hn
    unfold resolve_tool_command_id
    rw [hn]
    rfl

theorem generate_tool_names_spec_witness :
    (genBatch ["a b", "a_b"] []).1.Nodup ∧
    (∀ n ∈ (genBatch ["a b", "a_b"] []).1, n.data.length ≤ 128) ∧
    (∀ p ∈ (genBatch ["a b", "a_b"] []).1.zip ["a b", "a_b"],
      resolve_tool_command_id (genBatch ["a b", "a_b"] []).2 p.1 = p.2) ∧
    (∀ n, getv (genBatch ["a b", "a_b"] []).2 n = Option.none →
      resolve_tool_command_id (genBatch ["a b", "a_b"] []).2 n = n) :=
  generate_tool_names_spec ["a b", "a_b"] (by decide) (by norm_num)
